import Mathlib

/-!
# CanvasMarkerLayer (`src/text-marker-canvas.js`)

A shallow embedding of the canvas marker layer: the master marker index with its
`dirty` / `total` counters, the redraw pipeline, the draw dispatcher with its
per-URL image cache, and the pointer-event router.

JavaScript numbers are embedded as exact rationals (`ℚ`); the integer counters
`dirty` and `total` are `Int`.  A call that raises a `TypeError` is embedded as
`Res.threw`, carrying the layer state reached when the error was raised.
-/

namespace CanvasMarkerLayer

/-! ## Data model -/

/-- A pixel position (`L.Point`). -/
structure Point where
  x : ℚ
  y : ℚ
deriving DecidableEq, Repr

/-- The options of a marker icon (`marker.options.icon.options`): the image
address (absent for a text icon), the anchor and the size, both pairs. -/
structure IconOptions where
  iconUrl : Option String
  iconAnchor : ℚ × ℚ
  iconSize : ℚ × ℚ
deriving DecidableEq, Repr

/-- A Leaflet layer object as handed to the canvas layer.  `id` is the object
identity, which is also the `_leaflet_id` that `L.Util.stamp` gives it;
`lat` / `lng` is what `getLatLng()` answers; `pane`, `icon` and `zIndex` are the
fields of `options` the layer reads; `popup` / `tooltip` tell whether
`getPopup()` / `getTooltip()` answer an object.  The object is taken as it is
when handed over: nothing in the embedding moves a marker or changes its
options; its one field the layer writes, `canvas_img`, is kept in the layer
state. -/
structure Marker where
  id : Nat
  lat : ℚ
  lng : ℚ
  pane : String
  icon : Option IconOptions
  zIndex : Option ℚ
  popup : Bool
  tooltip : Bool
deriving DecidableEq, Repr

/-- A bounding box, rbush's `{minX, minY, maxX, maxY}`. -/
structure BBox where
  minX : ℚ
  minY : ℚ
  maxX : ℚ
  maxY : ℚ
deriving DecidableEq, Repr

/-- The record `MarkerData` of the master index `_markers`. -/
structure MarkerData where
  minX : ℚ
  minY : ℚ
  maxX : ℚ
  maxY : ℚ
  data : Marker
deriving DecidableEq, Repr

/-- A pixel-space record of `_containMarkers` / `_showMarkers`.  `_redraw` builds
it with `pointPos` (its `newCoords`), `_drawMarker` with `lng` and `lat`; the
field the builder does not write is absent. -/
structure ScreenData where
  minX : ℚ
  minY : ℚ
  maxX : ℚ
  maxY : ℚ
  data : Marker
  pointPos : Option Point
  lng : Option ℚ
  lat : Option ℚ
deriving DecidableEq, Repr

def MarkerData.toBBox (e : MarkerData) : BBox := ⟨e.minX, e.minY, e.maxX, e.maxY⟩

def ScreenData.toBBox (e : ScreenData) : BBox := ⟨e.minX, e.minY, e.maxX, e.maxY⟩

/-! ## The rbush index -/

/-- Modelled from the spec: the `rbush` package is imported, not part of the
source file.  rbush's box test: the boxes share at least one point, borders
included. -/
def intersects (a b : BBox) : Bool :=
  decide (b.minX ≤ a.maxX) && decide (b.minY ≤ a.maxY) &&
    decide (a.minX ≤ b.maxX) && decide (a.minY ≤ b.maxY)

/-- Modelled from the spec: an rbush instance is embedded as the list of the
entries it holds, in traversal order (section 4.1 of the specification:
insert, remove, search, collides, all, clear, load). -/
structure RBush (α : Type) where
  items : List α
deriving DecidableEq, Repr

namespace RBush

variable {α : Type}

/-- Modelled from the spec: `new rbush(...)`, and the result of `clear()`. -/
def empty : RBush α := ⟨[]⟩

/-- Modelled from the spec: `clear()` drops every entry. -/
def clear (_t : RBush α) : RBush α := ⟨[]⟩

/-- Modelled from the spec: `insert(entry)` adds one entry. -/
def insert (t : RBush α) (e : α) : RBush α := ⟨t.items ++ [e]⟩

/-- Modelled from the spec: `all()` answers every entry. -/
def all (t : RBush α) : List α := t.items

/-- Modelled from the spec: `load(entries)` adds the entries in bulk. -/
def load (t : RBush α) (es : List α) : RBush α := ⟨t.items ++ es⟩

/-- Modelled from the spec: `remove(entry, equalsFn)` removes the first entry
`x` with `equalsFn(entry, x)`, and nothing when there is none. -/
def remove (t : RBush α) (e : α) (equalsFn : α → α → Bool) : RBush α :=
  ⟨t.items.eraseP (fun x => equalsFn e x)⟩

/-- Modelled from the spec: `search(box)` answers the entries whose box
intersects `box`. -/
def search (toBBox : α → BBox) (t : RBush α) (box : BBox) : List α :=
  t.items.filter (fun x => intersects box (toBBox x))

/-- Modelled from the spec: `collides(box)` tells whether some entry's box
intersects `box`. -/
def collides (toBBox : α → BBox) (t : RBush α) (box : BBox) : Bool :=
  t.items.any (fun x => intersects box (toBBox x))

end RBush

/-! ## The layer state -/

/-- Modelled from the spec: what the layer reads from the host map (section 6):
the geographic viewport and the projection to surface pixels,
`latLngToContainerPoint`, given latitude then longitude. -/
structure MapView where
  west : ℚ
  south : ℚ
  east : ℚ
  north : ℚ
  latLngToContainerPoint : ℚ → ℚ → Point

/-- Modelled from the spec: Leaflet's `getBounds().contains(latlng)`, the
position lies in the viewport, borders included. -/
def MapView.contains (map : MapView) (lat lng : ℚ) : Bool :=
  decide (map.south ≤ lat) && decide (lat ≤ map.north) &&
    decide (map.west ≤ lng) && decide (lng ≤ map.east)

/-- The layer options the modelled code reads. -/
structure Options where
  collisionFlg : Bool
deriving DecidableEq, Repr

/-- A call on the 2D drawing context, as the layer issues it: the clear of the
whole surface, the blit of a marker's image, the clear of a text region and
the text fill. -/
inductive CanvasOp where
  | clearRect
  | drawImage (marker : Marker) (pointPos : Point)
  | clearText (marker : Marker) (pointPos : Point)
  | fillText (marker : Marker) (pointPos : Point)
deriving DecidableEq, Repr

/-- An entry of `_imageLookup`: `[image, isLoaded, preload list]`. -/
structure ImageEntry where
  loaded : Bool
  pending : List (Marker × Point)
deriving DecidableEq, Repr

/-- A pointer event of the map: its `type` and `containerPoint`. -/
structure PointerEvent where
  type : String
  containerPoint : Point
deriving DecidableEq, Repr

/-- What the layer does to its surroundings besides drawing: messages on the
console, tooltip and popup calls on a marker, the cursor style of the map
container, and the call of a registered listener (named by its number) with
the event and the hit list. -/
inductive Effect where
  | consoleError (msg : String)
  | closeTooltip (m : Marker)
  | openTooltip (m : Marker)
  | openPopup (m : Marker)
  | cursor (style : String)
  | listener (id : Nat) (event : PointerEvent) (ret : List ScreenData)
deriving DecidableEq, Repr

/-- The state of a `CanvasMarkerLayer`.  `dirty` and `total` are the two
counters kept on `_markers`; `canvas_img` holds, for each marker object whose
`canvas_img` is set, its identity and the cache key of the image; `loads` lists
the image loads started (`new Image()` with its `src`); `_ctx` is the log of
the calls on the drawing context, absent before `_initCanvas`. -/
structure Layer where
  options : Options
  _map : Option MapView
  _ctx : Option (List CanvasOp)
  _markers : RBush MarkerData
  dirty : Int
  total : Int
  _containMarkers : RBush ScreenData
  _showMarkers : RBush ScreenData
  _showMarkerBounds : RBush BBox
  _imageLookup : List (String × ImageEntry)
  canvas_img : List (Nat × String)
  loads : List String
  _openToolTip : Option Marker
  _onClickListeners : List Nat
  _onHoverListeners : List Nat
  _onMouseDownListeners : List Nat
  _onMouseUpListeners : List Nat
  effects : List Effect

/-- The result of a call: it returned, or it raised a `TypeError`; either way
with the layer state reached. -/
inductive Res where
  | done (L : Layer)
  | threw (L : Layer)

/-- The layer state a call ends in. -/
def Res.layer : Res → Layer
  | .done L => L
  | .threw L => L

/-- Whether the call returned. -/
def Res.returned : Res → Bool
  | .done _ => true
  | .threw _ => false

/-- The constructor of the layer (its `initialize` method): empty indices,
counters at 0, no listeners; no map and no drawing context yet. -/
def init (options : Options) : Layer :=
  { options := options
    _map := none
    _ctx := none
    _markers := RBush.empty
    dirty := 0
    total := 0
    _containMarkers := RBush.empty
    _showMarkers := RBush.empty
    _showMarkerBounds := RBush.empty
    _imageLookup := []
    canvas_img := []
    loads := []
    _openToolTip := none
    _onClickListeners := []
    _onHoverListeners := []
    _onMouseDownListeners := []
    _onMouseUpListeners := []
    effects := [] }

/-! ## Draw dispatcher -/

/-- The function `_drawImage`: reads the icon options, then draws on `this._ctx`. -/
def _drawImage (L : Layer) (marker : Marker) (pointPos : Point) : Res :=
  match marker.icon with
  | none => .threw L
  | some _ =>
    match L._ctx with
    | none => .threw L
    | some ops => .done { L with _ctx := some (ops ++ [CanvasOp.drawImage marker pointPos]) }

/-- The function `_drawText`: reads the icon options, clears the text region on
`this._ctx`, reads the zoom of `this._map`, then fills the text. -/
def _drawText (L : Layer) (marker : Marker) (pointPos : Point) : Res :=
  match marker.icon with
  | none => .threw L
  | some _ =>
    match L._ctx with
    | none => .threw L
    | some ops =>
      let L1 := { L with _ctx := some (ops ++ [CanvasOp.clearText marker pointPos]) }
      match L._map with
      | none => .threw L1
      | some _ =>
        .done { L with _ctx := some (ops ++ [CanvasOp.clearText marker pointPos,
                                             CanvasOp.fillText marker pointPos]) }

/-- JavaScript truthiness of a number: every number but 0 (the embedding has no
NaN). -/
def truthyNum (x : ℚ) : Bool := decide (x ≠ 0)

/-- JavaScript truthiness of `iconUrl`: a non-empty string. -/
def truthyUrl : Option String → Bool
  | some s => decide (s ≠ "")
  | none => false

/-- The property key `iconUrl` becomes in `_imageLookup[iconUrl]`, and the
string it becomes as `src`. -/
def urlKey : Option String → String
  | some s => s
  | none => "undefined"

/-- The branch `if (iconUrl) _drawImage(...) else _drawText(...)`. -/
def paintIcon (L : Layer) (iconUrl : Option String) (marker : Marker) (pointPos : Point) : Res :=
  if truthyUrl iconUrl then _drawImage L marker pointPos else _drawText L marker pointPos

/-- The pixel box `markerBounds` of `_drawMarker` (lines 265 to 277). -/
def markerBounds (ic : IconOptions) (pointPos : Point) : BBox :=
  let minX := pointPos.x - ic.iconAnchor.1
  let maxX := minX + 50
  let minY := pointPos.y - ic.iconAnchor.2
  let maxY := minY + 500
  ⟨minX, minY, maxX, maxY⟩

/-- The collision step of `_drawMarker` (lines 279 to 295): `none` is the early
`return`; otherwise the layer with the box and the record inserted when
`collisionFlg` is on, and unchanged when it is off. -/
def collisionStep (L : Layer) (marker : Marker) (ic : IconOptions) (pointPos : Point) :
    Option Layer :=
  let b := markerBounds ic pointPos
  if L.options.collisionFlg == true then
    if RBush.collides id L._showMarkerBounds b then none
    else
      some { L with
        _showMarkerBounds := L._showMarkerBounds.insert b
        _showMarkers := L._showMarkers.insert
          { minX := b.minX, minY := b.minY, maxX := b.maxX, maxY := b.maxY,
            data := marker, pointPos := none, lng := some marker.lng, lat := some marker.lat } }
  else some L

/-- Replaces the entry stored under `key`. -/
def setEntry (key : String) (e : ImageEntry) :
    List (String × ImageEntry) → List (String × ImageEntry)
  | [] => []
  | (k, v) :: rest => if k = key then (k, e) :: rest else (k, v) :: setEntry key e rest

/-- The property names every plain JavaScript object inherits from
`Object.prototype` (ECMAScript, Annex B included).  The cache is created as
`{}`, so reading it under one of these names answers the inherited function (for
`__proto__` the prototype object), a truthy value that is no cache entry. -/
def objectPrototypeKeys : List String :=
  ["constructor", "hasOwnProperty", "isPrototypeOf", "propertyIsEnumerable",
   "toLocaleString", "toString", "valueOf", "__proto__", "__defineGetter__",
   "__defineSetter__", "__lookupGetter__", "__lookupSetter__"]

/-- What `_imageLookup[key]` answers when it is not `undefined`: an entry the
layer stored, or a value inherited from `Object.prototype`. -/
inductive CacheValue where
  | entry (e : ImageEntry)
  | inherited
deriving DecidableEq, Repr

/-- The read `self._imageLookup[key]`: the entry stored under the key; without
one, the inherited value when the key names one; `none` is `undefined`. -/
def cacheGet (cache : List (String × ImageEntry)) (key : String) : Option CacheValue :=
  match cache.lookup key with
  | some e => some (CacheValue.entry e)
  | none => if key ∈ objectPrototypeKeys then some CacheValue.inherited else none

/-- The image step of `_drawMarker` (lines 297 to 345).  Under an inherited value
`v` the code stores `v[0]`, which is `undefined`, as `canvas_img`, so the marker
still has no bitmap, and `v[1] === false` fails, so it draws at once. -/
def resolveIcon (L : Layer) (marker : Marker) (ic : IconOptions) (pointPos : Point) : Res :=
  let iconUrl := ic.iconUrl
  if (L.canvas_img.lookup marker.id).isSome then
    paintIcon L iconUrl marker pointPos
  else
    match cacheGet L._imageLookup (urlKey iconUrl) with
    | some (CacheValue.entry entry) =>
      let L1 := { L with canvas_img := (marker.id, urlKey iconUrl) :: L.canvas_img }
      if entry.loaded == false then
        .done { L1 with
          _imageLookup := setEntry (urlKey iconUrl)
            { entry with pending := entry.pending ++ [(marker, pointPos)] } L1._imageLookup }
      else
        paintIcon L1 iconUrl marker pointPos
    | some CacheValue.inherited =>
      paintIcon L iconUrl marker pointPos
    | none =>
      .done { L with
        canvas_img := (marker.id, urlKey iconUrl) :: L.canvas_img
        loads := L.loads ++ [urlKey iconUrl]
        _imageLookup := L._imageLookup ++ [(urlKey iconUrl, ⟨false, [(marker, pointPos)]⟩)] }

/-- The function `_drawMarker`.  Without `pointPos` the position is projected by
`this._map`. -/
def _drawMarker (L : Layer) (marker : Marker) (pointPos : Option Point) : Res :=
  let pos : Option Point :=
    match pointPos with
    | some p => some p
    | none => L._map.map (fun map => map.latLngToContainerPoint marker.lat marker.lng)
  match pos with
  | none => .threw L
  | some p =>
    match marker.icon with
    | none => .threw L
    | some ic =>
      match collisionStep L marker ic p with
      | none => .done L
      | some L1 => resolveIcon L1 marker ic p

/-- The loop of the handler `i.onload` over the preload list. -/
def paintAll (iconUrl : Option String) : Layer → List (Marker × Point) → Res
  | L, [] => .done L
  | L, e :: es =>
    match paintIcon L iconUrl e.1 e.2 with
    | .done L1 => paintAll iconUrl L1 es
    | .threw L1 => .threw L1

/-- The handler `i.onload` that `_drawMarker` installs for `iconUrl` together with
the cache entry it stores: marks the entry loaded and paints the preload list in
order.  (Without a stored entry there is no list to run over, and the handler
raises the error.) -/
def onload (L : Layer) (iconUrl : Option String) : Res :=
  match L._imageLookup.lookup (urlKey iconUrl) with
  | none => .threw L
  | some entry =>
    let L1 := { L with
      _imageLookup := setEntry (urlKey iconUrl) { entry with loaded := true } L._imageLookup }
    paintAll iconUrl L1 entry.pending

/-! ## Redraw pipeline -/

/-- The test `dirty / total >= 0.1` of `_redraw` on the two integer counters.
With `total` equal to 0 the quotient is `Infinity` for a positive `dirty`, `NaN`
for `dirty` equal to 0 and `-Infinity` for a negative one, and only `Infinity`
passes the comparison. -/
def needsRebuild (dirty total : Int) : Bool :=
  if total = 0 then decide (0 < dirty)
  else decide ((1 : ℚ) / 10 ≤ (dirty : ℚ) / (total : ℚ))

/-- The rebuild of `_redraw`: `all()` into `tmp`, `clear()`, `load(tmp)`, and
`dirty` back to 0. -/
def rebuild (L : Layer) : Layer :=
  let tmp := L._markers.all
  { L with _markers := L._markers.clear.load tmp, dirty := 0 }

/-- The box `mapBoxCoords` of `_redraw`. -/
def mapBoxCoords (map : MapView) : BBox :=
  ⟨map.west, map.south, map.east, map.north⟩

/-- The record `newCoords` that `_redraw` builds for a search result; reading
`iconSize` of a marker without icon raises the error (`none`). -/
def newCoords (map : MapView) (e : MarkerData) : Option ScreenData :=
  match e.data.icon with
  | none => none
  | some ic =>
    let pointPos := map.latLngToContainerPoint e.data.lat e.data.lng
    let adj_x := ic.iconSize.1 / 2
    let adj_y := ic.iconSize.2 / 2
    some { minX := pointPos.x - adj_x, minY := pointPos.y - adj_y,
           maxX := pointPos.x + adj_x, maxY := pointPos.y + adj_y,
           data := e.data, pointPos := some pointPos, lng := none, lat := none }

/-- The loop that fills `tmp` from the search result. -/
def collect (map : MapView) : List MarkerData → Option (List ScreenData)
  | [] => some []
  | e :: es =>
    match newCoords map e with
    | none => none
    | some c =>
      match collect map es with
      | none => none
      | some cs => some (c :: cs)

/-- The value `zIndex1` / `zIndex2` of the comparator:
`layer.data.options.zIndex ? layer.data.options.zIndex : 1`. -/
def zIndexOf (m : Marker) : ℚ :=
  match m.zIndex with
  | some z => if truthyNum z then z else 1
  | none => 1

/-- The comparator handed to `sort`. -/
def compareFn (collisionFlg : Bool) (layer1 layer2 : ScreenData) : ℚ :=
  let zIndex1 := zIndexOf layer1.data
  let zIndex2 := zIndexOf layer2.data
  (-zIndex1 + zIndex2) * (if collisionFlg then 1 else -1)

/-- The order `Array.prototype.sort` arranges by: `layer1` may stand before
`layer2` when the comparator is not positive. -/
def sortLe (collisionFlg : Bool) (layer1 layer2 : ScreenData) : Prop :=
  compareFn collisionFlg layer1 layer2 ≤ 0

instance (collisionFlg : Bool) : DecidableRel (sortLe collisionFlg) :=
  fun a b => inferInstanceAs (Decidable (compareFn collisionFlg a b ≤ 0))

/-- The call `tmp.sort(compareFn)`: the stable sort of ECMAScript, here by stable
insertion. -/
def sortTmp (collisionFlg : Bool) (tmp : List ScreenData) : List ScreenData :=
  tmp.insertionSort (sortLe collisionFlg)

/-- The loop `forEach` over the sorted `tmp`, calling `_drawMarker`. -/
def drawAll : Layer → List ScreenData → Res
  | L, [] => .done L
  | L, layer :: rest =>
    match _drawMarker L layer.data layer.pointPos with
    | .done L1 => drawAll L1 rest
    | .threw L1 => .threw L1

/-- The function `_redraw`. -/
def _redraw (L : Layer) (clear : Bool) : Res :=
  let L1 := { L with _showMarkerBounds := RBush.empty, _showMarkers := RBush.empty }
  let cleared : Option Layer :=
    if clear then
      match L1._ctx with
      | none => none
      | some ops => some { L1 with _ctx := some (ops ++ [CanvasOp.clearRect]) }
    else some L1
  match cleared with
  | none => .threw L1
  | some L2 =>
    match L2._map with
    | none => .done L2
    | some map =>
      let L3 := if needsRebuild L2.dirty L2.total then rebuild L2 else L2
      match collect map (RBush.search MarkerData.toBBox L3._markers (mapBoxCoords map)) with
      | none => .threw L3
      | some tmp =>
        let sorted := sortTmp L3.options.collisionFlg tmp
        match drawAll L3 sorted with
        | .threw L4 => .threw L4
        | .done L4 =>
          let L5 := { L4 with _containMarkers := L4._containMarkers.clear.load sorted }
          .done (if L5.options.collisionFlg != true then
                   { L5 with _showMarkers := L5._containMarkers }
                 else L5)

/-- The function `redraw`. -/
def redraw (L : Layer) : Res := _redraw L true

/-- The entry `addLayer` inserts for a marker. -/
def markerData (layer : Marker) : MarkerData :=
  { minX := layer.lng, minY := layer.lat, maxX := layer.lng, maxY := layer.lat, data := layer }

/-- The function `addLayer`. -/
def addLayer (L : Layer) (layer : Marker) (redraw : Bool) : Res :=
  if !(layer.pane == "markerPane" && layer.icon.isSome) then
    .done { L with effects := L.effects ++ [Effect.consoleError "Layer isn't a marker"] }
  else
    let L1 := { L with
      _markers := L._markers.insert (markerData layer)
      dirty := L.dirty + 1
      total := L.total + 1 }
    match L1._map with
    | none => .threw L1
    | some map =>
      let isDisplaying := map.contains layer.lat layer.lng
      if redraw == true && isDisplaying then _redraw L1 true else .done L1

/-- The loop of `addLayers`. -/
def addEach : Layer → List Marker → Res
  | L, [] => .done L
  | L, layer :: rest =>
    match addLayer L layer false with
    | .done L1 => addEach L1 rest
    | .threw L1 => .threw L1

/-- The function `addLayers`. -/
def addLayers (L : Layer) (layers : List Marker) (redraw : Bool) : Res :=
  match addEach L layers with
  | .threw L1 => .threw L1
  | .done L1 => if redraw then _redraw L1 true else .done L1

/-- What `removeLayer` may be handed: a marker, or an entry of the master index
as `getAllLayers` answers them. -/
inductive LayerArg where
  | marker (m : Marker)
  | entry (e : MarkerData)

/-- The line `if (layer['minX']) layer = layer.data;`: a marker has no field
`minX`; an entry is replaced by its marker when its `minX` is truthy. -/
def unwrap : LayerArg → LayerArg
  | .marker m => .marker m
  | .entry e => if truthyNum e.minX then .marker e.data else .entry e

/-- The equality `removeLayer` hands to `remove`. -/
def sameLeafletId (a b : MarkerData) : Bool := a.data.id == b.data.id

/-- The function `removeLayer`.  An entry that was not replaced by its marker
has no `getLatLng`, so the call on it raises the error. -/
def removeLayer (L : Layer) (layer : LayerArg) (redraw : Bool) : Res :=
  match unwrap layer with
  | .entry _ => .threw L
  | .marker m =>
    match L._map with
    | none => .threw L
    | some map =>
      let isDisplaying := map.contains m.lat m.lng
      let L1 := { L with
        _markers := L._markers.remove (markerData m) sameLeafletId
        total := L.total - 1
        dirty := L.dirty + 1 }
      if isDisplaying == true && redraw == true then _redraw L1 true else .done L1

/-- The function `getAllLayers`. -/
def getAllLayers (L : Layer) : List MarkerData := L._markers.all

/-- The first lines of `onAdd`: the map is stored and, when there is no canvas
yet, `_initCanvas` creates the drawing context. -/
def attach (L : Layer) (map : MapView) : Layer :=
  { L with _map := some map, _ctx := some (L._ctx.getD []) }

/-- The function `onAdd`: after the attachment, `_reset` runs `_update`, which
calls `_redraw()` without the clear flag. -/
def onAdd (L : Layer) (map : MapView) : Res := _redraw (attach L map) false


/-! ## Event router -/

/-- Calls each listener in turn with the event and the hit list. -/
def callListeners (L : Layer) (listeners : List Nat) (event : PointerEvent)
    (ret : List ScreenData) : Layer :=
  { L with effects := L.effects ++ listeners.map (fun l => Effect.listener l event ret) }

/-- The function `_executeListeners`. -/
def _executeListeners (L : Layer) (event : PointerEvent) : Res :=
  let x := event.containerPoint.x
  let y := event.containerPoint.y
  let L1 :=
    match L._openToolTip with
    | some m => { L with effects := L.effects ++ [Effect.closeTooltip m], _openToolTip := none }
    | none => L
  let ret := RBush.search ScreenData.toBBox L1._showMarkers ⟨x, y, x, y⟩
  match L1._map with
  | none => .threw L1
  | some _ =>
    match ret with
    | [] => .done { L1 with effects := L1.effects ++ [Effect.cursor ""] }
    | hit :: _ =>
      let L2 := { L1 with effects := L1.effects ++ [Effect.cursor "pointer"] }
      let L3 :=
        if event.type = "click" then
          let L2a :=
            if hit.data.popup then { L2 with effects := L2.effects ++ [Effect.openPopup hit.data] }
            else L2
          callListeners L2a L2a._onClickListeners event ret
        else L2
      let L4 :=
        if event.type = "mousemove" then
          let L3a :=
            if hit.data.tooltip then
              { L3 with _openToolTip := some hit.data,
                        effects := L3.effects ++ [Effect.openTooltip hit.data] }
            else L3
          callListeners L3a L3a._onHoverListeners event ret
        else L3
      let L5 :=
        if event.type = "mousedown" then callListeners L4 L4._onMouseDownListeners event ret
        else L4
      let L6 :=
        if event.type = "mouseup" then callListeners L5 L5._onMouseUpListeners event ret
        else L5
      .done L6

/-! ## Sample data -/

/-- A viewport from -10 to 10 in both directions; one degree of longitude is 40
pixels wide and one degree of latitude one pixel high. -/
def view0 : MapView :=
  { west := -10, south := -10, east := 10, north := 10
    latLngToContainerPoint := fun lat lng => ⟨40 * lng, lat⟩ }

/-- An image icon "a.png" of size 20 by 20 anchored at its centre. -/
def iconA : IconOptions := { iconUrl := some "a.png", iconAnchor := (10, 10), iconSize := (20, 20) }

/-- A marker with icon `iconA`, of the given identity, position and `zIndex`. -/
def mkMarker (id : Nat) (lat lng : ℚ) (zIndex : Option ℚ) : Marker :=
  { id := id, lat := lat, lng := lng, pane := "markerPane", icon := some iconA,
    zIndex := zIndex, popup := false, tooltip := false }

/-- A fresh layer with `view0` attached. -/
def layer0 (collisionFlg : Bool) : Layer := attach (init ⟨collisionFlg⟩) view0

/-- A marker on the meridian of Greenwich: longitude 0, latitude 5. -/
def markerGreenwich : Marker := mkMarker 1 5 0 none

/-- A marker at longitude 3, latitude 5. -/
def markerEast : Marker := mkMarker 2 5 3 none

/-- Three markers in a row, 40 pixels apart, of `zIndex` 5, 3 and 1: the footprint
of the middle one overlaps both others, the outer two do not overlap. -/
def markerA : Marker := mkMarker 11 0 0 (some 5)

def markerB : Marker := mkMarker 12 0 1 (some 3)

def markerC : Marker := mkMarker 13 0 2 (some 1)

/-- A layer with collision suppression on, holding the three markers in a row. -/
def chainLayer : Layer := (addLayers (layer0 true) [markerA, markerB, markerC] false).layer

/-- Two markers at the same position with the same icon, of `zIndex` 1 and 5. -/
def markerM1 : Marker := mkMarker 21 0 0 (some 1)

def markerM2 : Marker := mkMarker 22 0 0 (some 5)

/-- A layer with collision suppression on, holding `markerM1` and `markerM2`. -/
def pairLayer : Layer := (addLayers (layer0 true) [markerM1, markerM2] false).layer

/-- Two markers 200 pixels apart, of `zIndex` 0 and one half, and one of
`zIndex` -1. -/
def markerZero : Marker := mkMarker 31 0 0 (some 0)

def markerHalf : Marker := mkMarker 32 0 5 (some (1 / 2))

def markerNeg : Marker := mkMarker 33 0 0 (some (-1))

/-- A layer holding `markerHalf` and `markerZero`, added in this order. -/
def zeroLayer (collisionFlg : Bool) : Layer :=
  (addLayers (layer0 collisionFlg) [markerHalf, markerZero] false).layer

/-- A layer holding `markerNeg` and `markerHalf`, added in this order. -/
def negLayer (collisionFlg : Bool) : Layer :=
  (addLayers (layer0 collisionFlg) [markerNeg, markerHalf] false).layer

/-- A marker outside the viewport of `view0`: latitude 50. -/
def markerFar : Marker := mkMarker 3 50 3 none

/-- A layer holding one marker inside and one outside the viewport. -/
def viewLayer (collisionFlg : Bool) : Layer :=
  (addLayers (layer0 collisionFlg) [markerEast, markerFar] false).layer

/-- The markers numbered from 0 up to `n`, excluded, all at the centre of the
viewport. -/
def manyMarkers (n : Nat) : List Marker :=
  (List.range n).map (fun i => mkMarker i 0 0 none)

/-- The call `removeLayer(m, false)` for each marker in turn. -/
def removeEach : Layer → List Marker → Res
  | L, [] => .done L
  | L, m :: rest =>
    match removeLayer L (.marker m) false with
    | .done L1 => removeEach L1 rest
    | .threw L1 => .threw L1

/-- The layer after 1000 markers were added by `addLayers` and the first 150 of
them removed one by one without redraw. -/
def churnLayer (redraw : Bool) : Layer :=
  (removeEach (addLayers (layer0 false) (manyMarkers 1000) redraw).layer (manyMarkers 150)).layer

/-- The layer after one marker was added and removed again, both without
redraw. -/
def emptiedLayer : Layer :=
  (removeLayer (addLayer (layer0 false) markerEast false).layer (.marker markerEast) false).layer

/-- A marker whose icon address is the name of an inherited property of every
plain object. -/
def markerToString : Marker :=
  { id := 51, lat := 0, lng := 0, pane := "markerPane",
    icon := some { iconUrl := some "toString", iconAnchor := (10, 10), iconSize := (20, 20) },
    zIndex := none, popup := false, tooltip := false }

/-- Two requests for the same marker at two pixel positions, as two redraws in a
row issue them. -/
def repeatedRequests : List (Marker × Point) := [(markerEast, ⟨120, 5⟩), (markerEast, ⟨160, 5⟩)]

/-- Two requests for two markers with the same icon at the same pixel position. -/
def stackedRequests : List (Marker × Point) := [(markerM2, ⟨0, 0⟩), (markerM1, ⟨0, 0⟩)]

/-- Two requests for two markers with the same icon, 120 pixels apart. -/
def apartRequests : List (Marker × Point) := [(markerEast, ⟨120, 5⟩), (markerGreenwich, ⟨0, 5⟩)]

/-- A marker with a tooltip at the centre of the viewport. -/
def tipMarker : Marker :=
  { id := 41, lat := 0, lng := 0, pane := "markerPane", icon := some iconA,
    zIndex := none, popup := false, tooltip := true }

/-- A layer showing `tipMarker`, after the pointer moved over it: its tooltip is
open. -/
def hoverLayer : Layer :=
  (_executeListeners (addLayer (layer0 false) tipMarker true).layer ⟨"mousemove", ⟨0, 0⟩⟩).layer

/-- The hit list of a pointer event: the search of the visible-set index at the
point of the event. -/
def hits (L : Layer) (event : PointerEvent) : List ScreenData :=
  RBush.search ScreenData.toBBox L._showMarkers
    ⟨event.containerPoint.x, event.containerPoint.y, event.containerPoint.x,
     event.containerPoint.y⟩

/-! ## Notions used by the statements -/

/-- The master index is as `addLayer` fills it: every entry is the point entry of
its marker, and the marker has an icon. -/
def Layer.indexed (L : Layer) : Prop :=
  ∀ e ∈ L._markers.items, e = markerData e.data ∧ e.data.icon.isSome = true

/-- The fields the draw dispatcher never writes are the same in both states, and
the drawing context is present in both or in neither. -/
structure SameCore (L L1 : Layer) : Prop where
  options : L1.options = L.options
  map : L1._map = L._map
  ctx : L1._ctx.isSome = L._ctx.isSome
  markers : L1._markers = L._markers
  dirty : L1.dirty = L.dirty
  total : L1.total = L.total
  contain : L1._containMarkers = L._containMarkers
  tooltip : L1._openToolTip = L._openToolTip
  effects : L1.effects = L.effects

/-- The collision index and the visible-set index are the same in both states. -/
structure SameIndex (L L1 : Layer) : Prop where
  bounds : L1._showMarkerBounds = L._showMarkerBounds
  shown : L1._showMarkers = L._showMarkers

/-- The pixel box `_drawMarker` computes for a candidate of `_redraw`. -/
def footprint (c : ScreenData) : Option BBox :=
  match c.pointPos, c.data.icon with
  | some p, some ic => some (markerBounds ic p)
  | _, _ => none

/-- The record `_drawMarker` inserts into `_showMarkers` for a candidate it
accepts. -/
def shownRecord (c : ScreenData) : Option ScreenData :=
  (footprint c).map fun b =>
    { minX := b.minX, minY := b.minY, maxX := b.maxX, maxY := b.maxY,
      data := c.data, pointPos := none, lng := some c.data.lng, lat := some c.data.lat }

/-- Whether `_drawMarker`, called for the candidate in state `L`, gets past its
collision step and goes on to the image step: the candidate is accepted for
painting. -/
def accepted (L : Layer) (c : ScreenData) : Bool :=
  match c.pointPos, c.data.icon with
  | some p, some ic => (collisionStep L c.data ic p).isSome
  | _, _ => false

/-- The candidates accepted for painting when the loop of `_redraw` runs over
`cs` from state `L`, in the order of `cs`. -/
def acceptedOf : Layer → List ScreenData → List ScreenData
  | _, [] => []
  | L, c :: cs =>
    if accepted L c then c :: acceptedOf (_drawMarker L c.data c.pointPos).layer cs
    else acceptedOf (_drawMarker L c.data c.pointPos).layer cs

/-- Two candidates whose footprints overlap (share a point). -/
def overlap (a b : ScreenData) : Prop :=
  ∃ fa fb, footprint a = some fa ∧ footprint b = some fb ∧ intersects fa fb = true

/-- A sequence of `_drawMarker` requests, each with its pixel position, issued in
turn. -/
def requestEach : Layer → List (Marker × Point) → Res
  | L, [] => .done L
  | L, r :: rest =>
    match _drawMarker L r.1 (some r.2) with
    | .done L1 => requestEach L1 rest
    | .threw L1 => .threw L1

/-- Whether the request, issued in state `L`, gets past the collision step of
`_drawMarker` and reaches its image step. -/
def reachesImageStep (L : Layer) (r : Marker × Point) : Bool :=
  match r.1.icon with
  | some ic => (collisionStep L r.1 ic r.2).isSome
  | none => false

/-- The requests of a sequence that reach the image step, in order. -/
def reaching : Layer → List (Marker × Point) → List (Marker × Point)
  | _, [] => []
  | L, r :: rest =>
    if reachesImageStep L r then r :: reaching (_drawMarker L r.1 (some r.2)).layer rest
    else reaching (_drawMarker L r.1 (some r.2)).layer rest

/-- Following the spec: the stacking priority of a marker is its configured
z-order value, and 1 when none is configured. -/
def priority (m : Marker) : ℚ := m.zIndex.getD 1

/-- The image step of `_drawMarker` run for each candidate in turn, with no
collision step before it. -/
def resolveAll : Layer → List ScreenData → Res
  | L, [] => .done L
  | L, c :: cs =>
    match c.pointPos, c.data.icon with
    | some p, some ic =>
      match resolveIcon L c.data ic p with
      | .done L1 => resolveAll L1 cs
      | .threw L1 => .threw L1
    | _, _ => .threw L

/-- The state in which `_redraw` starts its drawing loop: the collision index and
the visible-set index reset, the surface cleared on request, the master index
rebuilt when the test asks for it. -/
def redrawStart (L : Layer) (clear : Bool) : Layer :=
  let L2 := { L with
    _showMarkerBounds := RBush.empty
    _showMarkers := RBush.empty
    _ctx := if clear then L._ctx.map (fun ops => ops ++ [CanvasOp.clearRect]) else L._ctx }
  if needsRebuild L2.dirty L2.total then rebuild L2 else L2

/-- The list `tmp` of `_redraw` after the sort: the candidates in the viewport in
the order in which `_drawMarker` is called for them. -/
def dispatchOrder (L : Layer) (map : MapView) : List ScreenData :=
  sortTmp L.options.collisionFlg
    ((collect map (RBush.search MarkerData.toBBox L._markers (mapBoxCoords map))).getD [])

/-- The end of `_redraw`: `_containMarkers` is cleared and loaded with `tmp`, and
with `collisionFlg` off it becomes the visible-set index. -/
def redrawEnd (L4 : Layer) (sorted : List ScreenData) : Layer :=
  let L5 := { L4 with _containMarkers := L4._containMarkers.clear.load sorted }
  if L5.options.collisionFlg != true then { L5 with _showMarkers := L5._containMarkers } else L5

/-! ## Counters of the master index -/

/-- C1: on a layer with a view attached and an empty master index, `removeLayer`
of a marker that was never added returns, finds and removes nothing, and still
counts `total` down: it reads -1 while the index holds 0 entries. -/
theorem removeLayer_absent_total :
    (removeLayer (layer0 false) (.marker markerEast) false).returned = true ∧
    (removeLayer (layer0 false) (.marker markerEast) false).layer._markers.items = [] ∧
    (layer0 false).total = 0 ∧
    (removeLayer (layer0 false) (.marker markerEast) false).layer.total = -1 := by
  decide

/-- C2: the entry of a marker at longitude 0, as `getAllLayers` answers it, is not
replaced by its marker (`minX` is 0, which is falsy), so `removeLayer` raises the
error and the entry stays in the master index; the entry of a marker at
longitude 3 is removed. -/
theorem removeLayer_entry_minX_zero :
    getAllLayers (addLayer (layer0 false) markerGreenwich false).layer
      = [markerData markerGreenwich] ∧
    (removeLayer (addLayer (layer0 false) markerGreenwich false).layer
      (.entry (markerData markerGreenwich)) false).returned = false ∧
    (removeLayer (addLayer (layer0 false) markerGreenwich false).layer
      (.entry (markerData markerGreenwich)) false).layer._markers.items
      = [markerData markerGreenwich] ∧
    getAllLayers (addLayer (layer0 false) markerEast false).layer = [markerData markerEast] ∧
    (removeLayer (addLayer (layer0 false) markerEast false).layer
      (.entry (markerData markerEast)) false).returned = true ∧
    (removeLayer (addLayer (layer0 false) markerEast false).layer
      (.entry (markerData markerEast)) false).layer._markers.items = [] := by
  decide!

/-! ## What the draw dispatcher leaves alone -/

theorem sameCore_refl (L : Layer) : SameCore L L :=
  ⟨rfl, rfl, rfl, rfl, rfl, rfl, rfl, rfl, rfl⟩

theorem sameCore_trans {L L1 L2 : Layer} (h1 : SameCore L L1) (h2 : SameCore L1 L2) :
    SameCore L L2 :=
  ⟨h2.options.trans h1.options, h2.map.trans h1.map, h2.ctx.trans h1.ctx,
   h2.markers.trans h1.markers, h2.dirty.trans h1.dirty, h2.total.trans h1.total,
   h2.contain.trans h1.contain, h2.tooltip.trans h1.tooltip, h2.effects.trans h1.effects⟩

theorem sameIndex_refl (L : Layer) : SameIndex L L := ⟨rfl, rfl⟩

theorem sameIndex_trans {L L1 L2 : Layer} (h1 : SameIndex L L1) (h2 : SameIndex L1 L2) :
    SameIndex L L2 :=
  ⟨h2.bounds.trans h1.bounds, h2.shown.trans h1.shown⟩

theorem drawImage_sameCore (L : Layer) (m : Marker) (p : Point) :
    SameCore L (_drawImage L m p).layer ∧ SameIndex L (_drawImage L m p).layer := by
  unfold _drawImage
  cases h1 : m.icon <;> cases h2 : L._ctx <;>
    refine ⟨⟨?_, ?_, ?_, ?_, ?_, ?_, ?_, ?_, ?_⟩, ⟨?_, ?_⟩⟩ <;> simp [Res.layer, h2]

theorem drawText_sameCore (L : Layer) (m : Marker) (p : Point) :
    SameCore L (_drawText L m p).layer ∧ SameIndex L (_drawText L m p).layer := by
  unfold _drawText
  cases h1 : m.icon <;> cases h2 : L._ctx <;> cases h3 : L._map <;>
    refine ⟨⟨?_, ?_, ?_, ?_, ?_, ?_, ?_, ?_, ?_⟩, ⟨?_, ?_⟩⟩ <;> simp [Res.layer, h2, h3]

theorem paintIcon_sameCore (L : Layer) (u : Option String) (m : Marker) (p : Point) :
    SameCore L (paintIcon L u m p).layer ∧ SameIndex L (paintIcon L u m p).layer := by
  unfold paintIcon
  split
  · exact drawImage_sameCore L m p
  · exact drawText_sameCore L m p

theorem resolveIcon_sameCore (L : Layer) (m : Marker) (ic : IconOptions) (p : Point) :
    SameCore L (resolveIcon L m ic p).layer ∧ SameIndex L (resolveIcon L m ic p).layer := by
  unfold resolveIcon
  simp only
  split
  · exact paintIcon_sameCore L _ m p
  · split
    · split
      · exact ⟨⟨rfl, rfl, rfl, rfl, rfl, rfl, rfl, rfl, rfl⟩, ⟨rfl, rfl⟩⟩
      · have h := paintIcon_sameCore
          { L with canvas_img := (m.id, urlKey ic.iconUrl) :: L.canvas_img } ic.iconUrl m p
        have c0 : SameCore L { L with canvas_img := (m.id, urlKey ic.iconUrl) :: L.canvas_img } :=
          ⟨rfl, rfl, rfl, rfl, rfl, rfl, rfl, rfl, rfl⟩
        have i0 : SameIndex L { L with canvas_img := (m.id, urlKey ic.iconUrl) :: L.canvas_img } :=
          ⟨rfl, rfl⟩
        exact ⟨sameCore_trans c0 h.1, sameIndex_trans i0 h.2⟩
    · exact paintIcon_sameCore L _ m p
    · exact ⟨⟨rfl, rfl, rfl, rfl, rfl, rfl, rfl, rfl, rfl⟩, ⟨rfl, rfl⟩⟩

theorem collisionStep_sameCore (L L1 : Layer) (m : Marker) (ic : IconOptions) (p : Point)
    (h : collisionStep L m ic p = some L1) : SameCore L L1 := by
  unfold collisionStep at h
  simp only at h
  split at h
  · split at h
    · exact absurd h (by simp)
    · cases h
      exact ⟨rfl, rfl, rfl, rfl, rfl, rfl, rfl, rfl, rfl⟩
  · cases h
    exact sameCore_refl L

theorem drawMarker_sameCore (L : Layer) (m : Marker) (pp : Option Point) :
    SameCore L (_drawMarker L m pp).layer := by
  unfold _drawMarker
  simp only
  split
  · exact sameCore_refl L
  · split
    · exact sameCore_refl L
    · split
      · exact sameCore_refl L
      · rename_i L1 h
        exact sameCore_trans (collisionStep_sameCore L L1 m _ _ h) (resolveIcon_sameCore L1 m _ _).1

theorem drawAll_sameCore (cs : List ScreenData) (L : Layer) :
    SameCore L (drawAll L cs).layer := by
  induction cs generalizing L with
  | nil => exact sameCore_refl L
  | cons c cs ih =>
    have h := drawMarker_sameCore L c.data c.pointPos
    unfold drawAll
    cases hd : _drawMarker L c.data c.pointPos with
    | done L1 =>
      rw [hd] at h
      exact sameCore_trans h (ih L1)
    | threw L1 =>
      rw [hd] at h
      exact h

/-! ## The draw dispatcher returns -/

theorem paintIcon_returned (L : Layer) (u : Option String) (m : Marker) (p : Point)
    (hmap : L._map.isSome = true) (hctx : L._ctx.isSome = true) (hi : m.icon.isSome = true) :
    (paintIcon L u m p).returned = true := by
  obtain ⟨map, hmap⟩ := Option.isSome_iff_exists.mp hmap
  obtain ⟨ops, hctx⟩ := Option.isSome_iff_exists.mp hctx
  obtain ⟨ic, hi⟩ := Option.isSome_iff_exists.mp hi
  unfold paintIcon
  split
  · simp [_drawImage, hi, hctx, Res.returned]
  · simp [_drawText, hi, hctx, hmap, Res.returned]

theorem resolveIcon_returned (L : Layer) (m : Marker) (ic : IconOptions) (p : Point)
    (hmap : L._map.isSome = true) (hctx : L._ctx.isSome = true) (hi : m.icon.isSome = true) :
    (resolveIcon L m ic p).returned = true := by
  unfold resolveIcon
  simp only
  split
  · exact paintIcon_returned L _ m p hmap hctx hi
  · split
    · split
      · rfl
      · exact paintIcon_returned _ _ m p hmap hctx hi
    · exact paintIcon_returned L _ m p hmap hctx hi
    · rfl

theorem drawMarker_returned (L : Layer) (m : Marker) (p : Point)
    (hmap : L._map.isSome = true) (hctx : L._ctx.isSome = true) (hi : m.icon.isSome = true) :
    (_drawMarker L m (some p)).returned = true := by
  obtain ⟨ic, hic⟩ := Option.isSome_iff_exists.mp hi
  unfold _drawMarker
  simp only [hic]
  cases h : collisionStep L m ic p with
  | none => rfl
  | some L1 =>
    have hc := collisionStep_sameCore L L1 m ic p h
    exact resolveIcon_returned L1 m ic p (by rw [hc.map]; exact hmap) (by rw [hc.ctx]; exact hctx) hi

theorem drawAll_returned (cs : List ScreenData) (L : Layer)
    (hmap : L._map.isSome = true) (hctx : L._ctx.isSome = true)
    (hv : ∀ c ∈ cs, c.pointPos.isSome = true ∧ c.data.icon.isSome = true) :
    (drawAll L cs).returned = true := by
  induction cs generalizing L with
  | nil => rfl
  | cons c cs ih =>
    obtain ⟨hp, hi⟩ := hv c (List.mem_cons_self c cs)
    obtain ⟨p, hp⟩ := Option.isSome_iff_exists.mp hp
    have hr := drawMarker_returned L c.data p hmap hctx hi
    have hc := drawMarker_sameCore L c.data (some p)
    unfold drawAll
    rw [hp]
    cases hd : _drawMarker L c.data (some p) with
    | done L1 =>
      rw [hd] at hc
      exact ih L1 (by rw [show L1._map = L._map from hc.map]; exact hmap)
        (by rw [show L1._ctx.isSome = L._ctx.isSome from hc.ctx]; exact hctx)
        (fun c hc => hv c (List.mem_cons_of_mem _ hc))
    | threw L1 =>
      rw [hd] at hr
      exact absurd hr (by simp [Res.returned])

/-! ## The collision step along the drawing loop -/

theorem intersects_comm (a b : BBox) : intersects a b = intersects b a := by
  unfold intersects
  cases decide (b.minX ≤ a.maxX) <;> cases decide (b.minY ≤ a.maxY) <;>
    cases decide (a.minX ≤ b.maxX) <;> cases decide (a.minY ≤ b.maxY) <;> rfl

theorem accepted_off (L : Layer) (c : ScreenData) (h : L.options.collisionFlg = false)
    (hv : c.pointPos.isSome = true ∧ c.data.icon.isSome = true) : accepted L c = true := by
  obtain ⟨p, hp⟩ := Option.isSome_iff_exists.mp hv.1
  obtain ⟨ic, hi⟩ := Option.isSome_iff_exists.mp hv.2
  simp [accepted, hp, hi, collisionStep, h]

theorem accepted_on (L : Layer) (c : ScreenData) (p : Point) (ic : IconOptions)
    (h : L.options.collisionFlg = true) (hp : c.pointPos = some p) (hi : c.data.icon = some ic) :
    accepted L c = !(RBush.collides id L._showMarkerBounds (markerBounds ic p)) := by
  simp only [accepted, hp, hi, collisionStep, h, beq_self_eq_true, if_true]
  cases RBush.collides id L._showMarkerBounds (markerBounds ic p) <;> simp

/-- The indices after one call of `_drawMarker` with `collisionFlg` on: the box
and the record of the candidate are appended when it is accepted, and nothing
changes when it is not. -/
theorem drawMarker_index (L : Layer) (c : ScreenData) (h : L.options.collisionFlg = true)
    (hv : c.pointPos.isSome = true ∧ c.data.icon.isSome = true) :
    (_drawMarker L c.data c.pointPos).layer._showMarkerBounds.items =
      L._showMarkerBounds.items ++ (if accepted L c then (footprint c).toList else []) ∧
    (_drawMarker L c.data c.pointPos).layer._showMarkers.items =
      L._showMarkers.items ++ (if accepted L c then (shownRecord c).toList else []) := by
  obtain ⟨p, hp⟩ := Option.isSome_iff_exists.mp hv.1
  obtain ⟨ic, hi⟩ := Option.isSome_iff_exists.mp hv.2
  have hacc := accepted_on L c p ic h hp hi
  unfold _drawMarker
  simp only [hp, hi]
  cases hcol : RBush.collides id L._showMarkerBounds (markerBounds ic p) with
  | true =>
    have hstep : collisionStep L c.data ic p = none := by
      simp [collisionStep, h, hcol]
    rw [hcol] at hacc
    simp [hstep, hacc, Res.layer]
  | false =>
    have hstep : collisionStep L c.data ic p = some { L with
        _showMarkerBounds := L._showMarkerBounds.insert (markerBounds ic p)
        _showMarkers := L._showMarkers.insert
          { minX := (markerBounds ic p).minX, minY := (markerBounds ic p).minY,
            maxX := (markerBounds ic p).maxX, maxY := (markerBounds ic p).maxY,
            data := c.data, pointPos := none, lng := some c.data.lng,
            lat := some c.data.lat } } := by
      simp [collisionStep, h, hcol]
    rw [hcol] at hacc
    simp only [hstep]
    have hidx := (resolveIcon_sameCore { L with
        _showMarkerBounds := L._showMarkerBounds.insert (markerBounds ic p)
        _showMarkers := L._showMarkers.insert
          { minX := (markerBounds ic p).minX, minY := (markerBounds ic p).minY,
            maxX := (markerBounds ic p).maxX, maxY := (markerBounds ic p).maxY,
            data := c.data, pointPos := none, lng := some c.data.lng,
            lat := some c.data.lat } } c.data ic p).2
    rw [hidx.bounds, hidx.shown]
    simp [hacc, footprint, shownRecord, hp, hi, RBush.insert]

/-- With `collisionFlg` off, `_drawMarker` leaves both indices as they are. -/
theorem drawMarker_index_off (L : Layer) (m : Marker) (pp : Option Point)
    (h : L.options.collisionFlg = false) :
    SameIndex L (_drawMarker L m pp).layer := by
  unfold _drawMarker
  simp only
  split
  · exact sameIndex_refl L
  · split
    · exact sameIndex_refl L
    · rename_i ic _
      have hstep : ∀ p, collisionStep L m ic p = some L := by
        intro p; simp [collisionStep, h]
      rw [hstep]
      exact (resolveIcon_sameCore L m ic _).2

theorem acceptedOf_sublist (cs : List ScreenData) (L : Layer) :
    (acceptedOf L cs).Sublist cs := by
  induction cs generalizing L with
  | nil => exact List.Sublist.slnil
  | cons c cs ih =>
    unfold acceptedOf
    split
    · exact (ih _).cons₂ c
    · exact (ih _).cons c

theorem acceptedOf_off (cs : List ScreenData) (L : Layer) (h : L.options.collisionFlg = false)
    (hv : ∀ c ∈ cs, c.pointPos.isSome = true ∧ c.data.icon.isSome = true) :
    acceptedOf L cs = cs := by
  induction cs generalizing L with
  | nil => rfl
  | cons c cs ih =>
    unfold acceptedOf
    rw [accepted_off L c h (hv c (List.mem_cons_self c cs)), if_pos rfl]
    rw [ih _ (by rw [(drawMarker_sameCore L c.data c.pointPos).options]; exact h)
      (fun c hc => hv c (List.mem_cons_of_mem _ hc))]

/-- With `collisionFlg` on, the footprint of an accepted candidate intersects no
box that the collision index held when the loop started. -/
theorem acceptedOf_clear (cs : List ScreenData) (L : Layer) (h : L.options.collisionFlg = true)
    (hv : ∀ c ∈ cs, c.pointPos.isSome = true ∧ c.data.icon.isSome = true) :
    ∀ a ∈ acceptedOf L cs, ∀ fa, footprint a = some fa →
      ∀ b ∈ L._showMarkerBounds.items, intersects fa b = false := by
  induction cs generalizing L with
  | nil => intro a ha; simp [acceptedOf] at ha
  | cons c cs ih =>
    have hvc := hv c (List.mem_cons_self c cs)
    obtain ⟨p, hp⟩ := Option.isSome_iff_exists.mp hvc.1
    obtain ⟨ic, hi⟩ := Option.isSome_iff_exists.mp hvc.2
    have hopt : (_drawMarker L c.data c.pointPos).layer.options.collisionFlg = true := by
      rw [(drawMarker_sameCore L c.data c.pointPos).options]; exact h
    have hidx := (drawMarker_index L c h hvc).1
    have ih1 := ih (_drawMarker L c.data c.pointPos).layer hopt
      (fun c hc => hv c (List.mem_cons_of_mem _ hc))
    have hrest : ∀ a ∈ acceptedOf (_drawMarker L c.data c.pointPos).layer cs, ∀ fa,
        footprint a = some fa → ∀ b ∈ L._showMarkerBounds.items, intersects fa b = false := by
      intro a ha fa hfa b hb
      exact ih1 a ha fa hfa b (by rw [hidx]; exact List.mem_append_left _ hb)
    intro a ha fa hfa b hb
    unfold acceptedOf at ha
    split at ha
    · rename_i hacc
      rcases List.mem_cons.mp ha with rfl | ha
      · rw [accepted_on L a p ic h hp hi] at hacc
        have hfp : fa = markerBounds ic p := by
          simp [footprint, hp, hi] at hfa; exact hfa.symm
        subst hfp
        simp only [RBush.collides, Bool.not_eq_true', List.any_eq_false, id] at hacc
        simpa using hacc b hb
      · exact hrest a ha fa hfa b hb
    · exact hrest a ha fa hfa b hb

/-- With `collisionFlg` on, no two accepted candidates have overlapping
footprints. -/
theorem acceptedOf_pairwise (cs : List ScreenData) (L : Layer)
    (h : L.options.collisionFlg = true)
    (hv : ∀ c ∈ cs, c.pointPos.isSome = true ∧ c.data.icon.isSome = true) :
    (acceptedOf L cs).Pairwise (fun a b => ¬ overlap a b) := by
  induction cs generalizing L with
  | nil => simp [acceptedOf]
  | cons c cs ih =>
    have hvc := hv c (List.mem_cons_self c cs)
    have hopt : (_drawMarker L c.data c.pointPos).layer.options.collisionFlg = true := by
      rw [(drawMarker_sameCore L c.data c.pointPos).options]; exact h
    have hv1 : ∀ c ∈ cs, c.pointPos.isSome = true ∧ c.data.icon.isSome = true :=
      fun c hc => hv c (List.mem_cons_of_mem _ hc)
    have ih1 := ih (_drawMarker L c.data c.pointPos).layer hopt hv1
    unfold acceptedOf
    split
    · rename_i hacc
      refine List.Pairwise.cons ?_ ih1
      intro a ha hov
      obtain ⟨fc, fa, hfc, hfa, hint⟩ := hov
      have hidx := (drawMarker_index L c h hvc).1
      rw [hacc, if_pos rfl, hfc] at hidx
      have := acceptedOf_clear cs _ hopt hv1 a ha fa hfa fc (by rw [hidx]; simp)
      rw [intersects_comm] at this
      rw [this] at hint
      exact absurd hint (by simp)
    · exact ih1

/-- The candidate dispatched first is accepted when the collision index is
empty. -/
theorem acceptedOf_head (c : ScreenData) (cs : List ScreenData) (L : Layer)
    (hb : L._showMarkerBounds.items = [])
    (hv : c.pointPos.isSome = true ∧ c.data.icon.isSome = true) :
    (acceptedOf L (c :: cs)).head? = some c := by
  have hacc : accepted L c = true := by
    cases h : L.options.collisionFlg with
    | false => exact accepted_off L c h hv
    | true =>
      obtain ⟨p, hp⟩ := Option.isSome_iff_exists.mp hv.1
      obtain ⟨ic, hi⟩ := Option.isSome_iff_exists.mp hv.2
      rw [accepted_on L c p ic h hp hi]
      simp [RBush.collides, hb]
  unfold acceptedOf
  rw [hacc, if_pos rfl]
  rfl

/-- The loop continues from the state the first call ends in. -/
theorem drawAll_cons (c : ScreenData) (cs : List ScreenData) (L : Layer)
    (hr : (_drawMarker L c.data c.pointPos).returned = true) :
    drawAll L (c :: cs) = drawAll (_drawMarker L c.data c.pointPos).layer cs := by
  rw [drawAll]
  cases hd : _drawMarker L c.data c.pointPos with
  | done L1 => rfl
  | threw L1 => rw [hd] at hr; exact absurd hr (by simp [Res.returned])

/-- With `collisionFlg` on, the loop appends to the two indices the boxes and the
records of the accepted candidates, in order. -/
theorem drawAll_index (cs : List ScreenData) (L : Layer) (h : L.options.collisionFlg = true)
    (hmap : L._map.isSome = true) (hctx : L._ctx.isSome = true)
    (hv : ∀ c ∈ cs, c.pointPos.isSome = true ∧ c.data.icon.isSome = true) :
    (drawAll L cs).layer._showMarkerBounds.items =
      L._showMarkerBounds.items ++ (acceptedOf L cs).filterMap footprint ∧
    (drawAll L cs).layer._showMarkers.items =
      L._showMarkers.items ++ (acceptedOf L cs).filterMap shownRecord := by
  induction cs generalizing L with
  | nil => simp [drawAll, acceptedOf, Res.layer]
  | cons c cs ih =>
    have hvc := hv c (List.mem_cons_self c cs)
    obtain ⟨p, hp⟩ := Option.isSome_iff_exists.mp hvc.1
    have hr : (_drawMarker L c.data c.pointPos).returned = true := by
      rw [hp]; exact drawMarker_returned L c.data p hmap hctx hvc.2
    have hc := drawMarker_sameCore L c.data c.pointPos
    have ih1 := ih (_drawMarker L c.data c.pointPos).layer
      (by rw [hc.options]; exact h) (by rw [hc.map]; exact hmap) (by rw [hc.ctx]; exact hctx)
      (fun c hc => hv c (List.mem_cons_of_mem _ hc))
    have hidx := drawMarker_index L c h hvc
    have hcons : acceptedOf L (c :: cs) =
        if accepted L c then c :: acceptedOf (_drawMarker L c.data c.pointPos).layer cs
        else acceptedOf (_drawMarker L c.data c.pointPos).layer cs := rfl
    rw [drawAll_cons c cs L hr, ih1.1, ih1.2, hidx.1, hidx.2, hcons]
    cases hacc : accepted L c with
    | false => simp
    | true =>
      obtain ⟨ic, hi⟩ := Option.isSome_iff_exists.mp hvc.2
      have hb : footprint c = some (markerBounds ic p) := by simp [footprint, hp, hi]
      simp [hb, shownRecord, List.filterMap_cons]

/-- With `collisionFlg` off, the loop leaves the two indices as they are. -/
theorem drawAll_index_off (cs : List ScreenData) (L : Layer)
    (h : L.options.collisionFlg = false) : SameIndex L (drawAll L cs).layer := by
  induction cs generalizing L with
  | nil => exact sameIndex_refl L
  | cons c cs ih =>
    have hi := drawMarker_index_off L c.data c.pointPos h
    have hc := drawMarker_sameCore L c.data c.pointPos
    unfold drawAll
    cases hd : _drawMarker L c.data c.pointPos with
    | done L1 =>
      rw [hd] at hi hc
      exact sameIndex_trans hi (ih L1 (by rw [show L1.options = L.options from hc.options]; exact h))
    | threw L1 =>
      rw [hd] at hi
      exact hi

/-! ## The redraw as a whole -/

theorem rebuild_items (L : Layer) : (rebuild L)._markers.items = L._markers.items := by
  simp [rebuild, RBush.load, RBush.clear, RBush.all]

theorem redrawStart_markers (L : Layer) (clear : Bool) :
    (redrawStart L clear)._markers.items = L._markers.items := by
  unfold redrawStart
  simp only
  split
  · rw [rebuild_items]
  · rfl

theorem redrawStart_frame (L : Layer) (clear : Bool) :
    (redrawStart L clear).options = L.options ∧ (redrawStart L clear)._map = L._map ∧
    (redrawStart L clear)._ctx.isSome = L._ctx.isSome ∧
    (redrawStart L clear).total = L.total ∧
    (redrawStart L clear)._showMarkerBounds.items = [] ∧
    (redrawStart L clear)._showMarkers.items = [] := by
  unfold redrawStart
  simp only
  split <;> cases clear <;> simp [rebuild, RBush.empty]

/-- The loop that fills `tmp` succeeds when every marker has an icon, and gives
one candidate per entry, for the same marker, in the same order. -/
theorem collect_some (map : MapView) (es : List MarkerData)
    (hv : ∀ e ∈ es, e.data.icon.isSome = true) :
    ∃ tmp, collect map es = some tmp ∧ tmp.map (fun c => c.data) = es.map (fun e => e.data) ∧
      ∀ c ∈ tmp, c.pointPos.isSome = true ∧ c.data.icon.isSome = true := by
  induction es with
  | nil => exact ⟨[], rfl, rfl, by simp⟩
  | cons e es ih =>
    obtain ⟨tmp, h1, h2, h3⟩ := ih (fun e he => hv e (List.mem_cons_of_mem _ he))
    have he := hv e (List.mem_cons_self e es)
    obtain ⟨ic, hic⟩ := Option.isSome_iff_exists.mp he
    obtain ⟨c, hc1, hc2, hc3⟩ : ∃ c, newCoords map e = some c ∧ c.data = e.data ∧
        c.pointPos.isSome = true := by
      simp [newCoords, hic]
    refine ⟨c :: tmp, by simp only [collect, hc1, h1], ?_, ?_⟩
    · simp [h2, hc2]
    · intro c1 hc
      rcases List.mem_cons.mp hc with rfl | hc
      · exact ⟨hc3, by rw [hc2]; exact he⟩
      · exact h3 c1 hc

theorem search_subset (box : BBox) (t : RBush MarkerData) :
    ∀ e ∈ RBush.search MarkerData.toBBox t box, e ∈ t.items := by
  intro e he
  exact (List.mem_filter.mp he).1

/-- With a map, and a drawing context when the surface is to be cleared,
`_redraw` is the search, the loop and the load, run from the start state. -/
theorem redraw_unfold (L : Layer) (clear : Bool) (map : MapView)
    (hmap : L._map = some map) (hok : clear = true → L._ctx.isSome = true) :
    _redraw L clear =
      match collect map (RBush.search MarkerData.toBBox (redrawStart L clear)._markers
          (mapBoxCoords map)) with
      | none => .threw (redrawStart L clear)
      | some tmp =>
        match drawAll (redrawStart L clear)
            (sortTmp (redrawStart L clear).options.collisionFlg tmp) with
        | .threw L4 => .threw L4
        | .done L4 =>
          .done (redrawEnd L4 (sortTmp (redrawStart L clear).options.collisionFlg tmp)) := by
  unfold _redraw redrawStart
  cases clear
  · simp only [hmap, if_false, Bool.false_eq_true]
    rfl
  · obtain ⟨ops, hops⟩ := Option.isSome_iff_exists.mp (hok rfl)
    simp only [hops, hmap, if_true, Option.map_some']
    rfl

/-- With a view attached and an icon on every indexed marker, `_redraw` returns:
it runs the loop over the dispatch order from the start state and then loads
`_containMarkers`. -/
theorem redraw_eq (L : Layer) (clear : Bool) (map : MapView)
    (hmap : L._map = some map) (hctx : L._ctx.isSome = true)
    (hv : ∀ e ∈ L._markers.items, e.data.icon.isSome = true) :
    _redraw L clear = .done
      (redrawEnd (drawAll (redrawStart L clear) (dispatchOrder (redrawStart L clear) map)).layer
        (dispatchOrder (redrawStart L clear) map)) ∧
    (drawAll (redrawStart L clear) (dispatchOrder (redrawStart L clear) map)).returned = true ∧
    (∀ c ∈ dispatchOrder (redrawStart L clear) map,
      c.pointPos.isSome = true ∧ c.data.icon.isSome = true) := by
  obtain ⟨ops, hops⟩ := Option.isSome_iff_exists.mp hctx
  have hfr := redrawStart_frame L clear
  have hv1 : ∀ e ∈ RBush.search MarkerData.toBBox (redrawStart L clear)._markers
      (mapBoxCoords map), e.data.icon.isSome = true := by
    intro e he
    have := search_subset _ _ e he
    rw [redrawStart_markers] at this
    exact hv e this
  obtain ⟨tmp, ht1, _, ht3⟩ := collect_some map _ hv1
  have hord : dispatchOrder (redrawStart L clear) map =
      sortTmp (redrawStart L clear).options.collisionFlg tmp := by
    simp [dispatchOrder, ht1]
  have hvalid : ∀ c ∈ dispatchOrder (redrawStart L clear) map,
      c.pointPos.isSome = true ∧ c.data.icon.isSome = true := by
    intro c hc
    rw [hord] at hc
    exact ht3 c ((List.perm_insertionSort _ tmp).subset hc)
  have hret := drawAll_returned (dispatchOrder (redrawStart L clear) map) (redrawStart L clear)
    (by rw [hfr.2.1, hmap]; rfl) (by rw [hfr.2.2.1]; exact hctx) hvalid
  refine ⟨?_, hret, hvalid⟩
  rw [redraw_unfold L clear map hmap (fun _ => hctx), ht1]
  simp only
  rw [← hord]
  cases hd : drawAll (redrawStart L clear) (dispatchOrder (redrawStart L clear) map) with
  | threw L4 => rw [hd] at hret; exact absurd hret (by simp [Res.returned])
  | done L4 => rfl

theorem dispatchOrder_start (L : Layer) (clear : Bool) (map : MapView) :
    dispatchOrder (redrawStart L clear) map = dispatchOrder L map := by
  have h1 : (redrawStart L clear)._markers = L._markers := by
    have := redrawStart_markers L clear
    cases hm : (redrawStart L clear)._markers
    cases hl : L._markers
    rw [hm, hl] at this
    simpa using this
  unfold dispatchOrder
  rw [h1, (redrawStart_frame L clear).1]

/-- The markers of the dispatch order are those of the search result, each as
often. -/
theorem dispatchOrder_perm (L : Layer) (map : MapView)
    (hv : ∀ e ∈ L._markers.items, e.data.icon.isSome = true) :
    ((dispatchOrder L map).map (fun c => c.data)).Perm
      ((RBush.search MarkerData.toBBox L._markers (mapBoxCoords map)).map (fun e => e.data)) := by
  obtain ⟨tmp, h1, h2, _⟩ := collect_some map
    (RBush.search MarkerData.toBBox L._markers (mapBoxCoords map))
    (fun e he => hv e (search_subset _ _ e he))
  unfold dispatchOrder
  rw [h1, ← h2]
  exact (List.perm_insertionSort _ tmp).map _

/-! ## Collision suppression -/

/-- C3, as stated, fails on three markers in a row: the footprints of the second
and the third overlap and the second comes first in the priority order, yet the
second is rejected (it overlaps the first) and the third is the one accepted. -/
theorem collision_chain_later_accepted :
    (dispatchOrder chainLayer view0).map (fun c => c.data.id) = [11, 12, 13] ∧
    (dispatchOrder chainLayer view0).map footprint =
      [some ⟨-10, -10, 40, 490⟩, some ⟨30, -10, 80, 490⟩, some ⟨70, -10, 120, 490⟩] ∧
    intersects ⟨30, -10, 80, 490⟩ ⟨70, -10, 120, 490⟩ = true ∧
    (acceptedOf (redrawStart chainLayer true) (dispatchOrder chainLayer view0)).map
      (fun c => c.data.id) = [11, 13] ∧
    (redraw chainLayer).returned = true ∧
    (redraw chainLayer).layer._showMarkers.items.map (fun r => r.data.id) = [11, 13] := by
  decide!

/-! ## Dispatch order -/

/-- C4: a marker of `zIndex` 0 is sorted as if its priority were 1.  With
`collisionFlg` on, it is dispatched (and accepted) before a marker of `zIndex`
one half, so the configured priorities 0, 1/2 are met in increasing order; with
`collisionFlg` off it is dispatched after it, the configured priorities 1/2, 0
in decreasing order.  A negative `zIndex` is sorted by its value. -/
theorem zIndex_zero_dispatch :
    (dispatchOrder (zeroLayer true) view0).map (fun c => c.data.zIndex)
      = [some 0, some (1 / 2)] ∧
    (redraw (zeroLayer true)).returned = true ∧
    (redraw (zeroLayer true)).layer._showMarkers.items.map (fun r => r.data.zIndex)
      = [some 0, some (1 / 2)] ∧
    (dispatchOrder (zeroLayer false) view0).map (fun c => c.data.zIndex)
      = [some (1 / 2), some 0] ∧
    (redraw (zeroLayer false)).returned = true ∧
    (redraw (zeroLayer false)).layer._containMarkers.items.map (fun r => r.data.zIndex)
      = [some (1 / 2), some 0] ∧
    (dispatchOrder (negLayer true) view0).map (fun c => c.data.zIndex)
      = [some (1 / 2), some (-1)] ∧
    (dispatchOrder (negLayer false) view0).map (fun c => c.data.zIndex)
      = [some (-1), some (1 / 2)] := by
  decide!

/-! ## The visible-set index -/

theorem intersects_mapBox (map : MapView) (m : Marker) :
    intersects (mapBoxCoords map) (markerData m).toBBox = map.contains m.lat m.lng := by
  simp only [intersects, mapBoxCoords, markerData, MarkerData.toBBox, MapView.contains]
  cases decide (m.lng ≤ map.east) <;> cases decide (m.lat ≤ map.north) <;>
    cases decide (map.west ≤ m.lng) <;> cases decide (map.south ≤ m.lat) <;> rfl

theorem shownRecord_data (c r : ScreenData) (h : shownRecord c = some r) : r.data = c.data := by
  unfold shownRecord at h
  cases hf : footprint c with
  | none => rw [hf] at h; simp at h
  | some b => rw [hf] at h; simp at h; rw [← h]

/-- The frame of `_redraw`: with a view attached and an icon on every indexed
marker it returns, keeps the map, the options and `total`, and keeps the entries
of the master index. -/
theorem redraw_frame (L : Layer) (clear : Bool) (map : MapView)
    (hmap : L._map = some map) (hctx : L._ctx.isSome = true)
    (hv : ∀ e ∈ L._markers.items, e.data.icon.isSome = true) :
    ∃ L1, _redraw L clear = .done L1 ∧ L1._map = some map ∧ L1._ctx.isSome = true ∧
      L1.options = L.options ∧ L1.total = L.total ∧
      L1._markers = (redrawStart L clear)._markers ∧
      L1._markers.items = L._markers.items ∧
      L1.dirty = (redrawStart L clear).dirty := by
  obtain ⟨heq, _, _⟩ := redraw_eq L clear map hmap hctx hv
  have hfr := redrawStart_frame L clear
  have hc := drawAll_sameCore (dispatchOrder (redrawStart L clear) map) (redrawStart L clear)
  refine ⟨_, heq, ?_, ?_, ?_, ?_, ?_, ?_, ?_⟩
  · unfold redrawEnd; simp only; split <;> simp only [hc.map, hfr.2.1, hmap]
  · unfold redrawEnd; simp only; split <;> simp only [hc.ctx, hfr.2.2.1, hctx]
  · unfold redrawEnd; simp only; split <;> simp only [hc.options, hfr.1]
  · unfold redrawEnd; simp only; split <;> simp only [hc.total, hfr.2.2.2.1]
  · unfold redrawEnd; simp only; split <;> simp only [hc.markers]
  · unfold redrawEnd; simp only; split <;> simp only [hc.markers, redrawStart_markers]
  · unfold redrawEnd; simp only; split <;> simp only [hc.dirty]

/-- C5: on a layer with a view attached whose master index is as `addLayer` fills
it, `_redraw` returns; afterwards every entry of the visible-set index belongs
to a marker of the master index whose position lies in the viewport box of the
map, borders included (so no marker outside the viewport has an entry), and
with `collisionFlg` off the visible-set index holds exactly one entry for each
master-index entry inside the viewport: it is the list of the candidates
drawn. -/
theorem redraw_visible_in_viewport (L : Layer) (clear : Bool) (map : MapView)
    (hmap : L._map = some map) (hctx : L._ctx.isSome = true) (hwf : L.indexed) :
    ∃ L1, _redraw L clear = .done L1 ∧ L1._map = some map ∧
      (∀ r ∈ L1._showMarkers.items,
        map.contains r.data.lat r.data.lng = true ∧ markerData r.data ∈ L1._markers.items) ∧
      (L.options.collisionFlg = false →
        L1._showMarkers.items = dispatchOrder L map ∧
        (L1._showMarkers.items.map (fun r => r.data)).Perm
          ((L1._markers.items.filter
            (fun e => map.contains e.data.lat e.data.lng)).map (fun e => e.data))) := by
  have hv : ∀ e ∈ L._markers.items, e.data.icon.isSome = true := fun e he => (hwf e he).2
  obtain ⟨heq, hret, hvalid⟩ := redraw_eq L clear map hmap hctx hv
  obtain ⟨L1, heq1, hm1, _, _, _, _, hitems, _⟩ := redraw_frame L clear map hmap hctx hv
  rw [dispatchOrder_start] at heq hret hvalid
  have hfr := redrawStart_frame L clear
  have hperm := dispatchOrder_perm L map hv
  -- the search result, read through the markers
  have hsearch : (RBush.search MarkerData.toBBox L._markers (mapBoxCoords map)) =
      L._markers.items.filter (fun e => map.contains e.data.lat e.data.lng) := by
    unfold RBush.search
    apply List.filter_congr
    intro e he
    have h := intersects_mapBox map e.data
    rw [← (hwf e he).1] at h
    exact h
  -- every dispatched candidate is in the viewport and indexed
  have hcand : ∀ c ∈ dispatchOrder L map,
      map.contains c.data.lat c.data.lng = true ∧ markerData c.data ∈ L._markers.items := by
    intro c hc
    have : c.data ∈ (dispatchOrder L map).map (fun c => c.data) := List.mem_map_of_mem _ hc
    have := hperm.subset this
    rw [hsearch] at this
    obtain ⟨e, he, hed⟩ := List.mem_map.mp this
    obtain ⟨he1, he2⟩ := List.mem_filter.mp he
    rw [← hed]
    exact ⟨he2, by rw [← (hwf e he1).1]; exact he1⟩
  have hL1 : L1 = redrawEnd (drawAll (redrawStart L clear) (dispatchOrder L map)).layer
      (dispatchOrder L map) := by
    rw [heq] at heq1; cases heq1; rfl
  have hopt : (drawAll (redrawStart L clear) (dispatchOrder L map)).layer.options = L.options := by
    rw [(drawAll_sameCore _ _).options, hfr.1]
  refine ⟨L1, heq1, hm1, ?_, ?_⟩
  · intro r hr
    rw [hitems]
    cases hflg : L.options.collisionFlg with
    | false =>
      have : L1._showMarkers.items = dispatchOrder L map := by
        rw [hL1]; simp [redrawEnd, hopt, hflg, RBush.load, RBush.clear]
      rw [this] at hr
      exact hcand r hr
    | true =>
      have hflg1 : (redrawStart L clear).options.collisionFlg = true := by rw [hfr.1]; exact hflg
      have hidx := (drawAll_index (dispatchOrder L map) (redrawStart L clear) hflg1
        (by rw [hfr.2.1, hmap]; rfl) (by rw [hfr.2.2.1]; exact hctx) hvalid).2
      rw [hfr.2.2.2.2.2, List.nil_append] at hidx
      have : L1._showMarkers.items =
          (acceptedOf (redrawStart L clear) (dispatchOrder L map)).filterMap shownRecord := by
        rw [hL1, ← hidx]; simp [redrawEnd, hopt, hflg]
      rw [this] at hr
      obtain ⟨c, hc, hcr⟩ := List.mem_filterMap.mp hr
      rw [shownRecord_data c r hcr]
      exact hcand c ((acceptedOf_sublist _ _).subset hc)
  · intro hflg
    have : L1._showMarkers.items = dispatchOrder L map := by
      rw [hL1]; simp [redrawEnd, hopt, hflg, RBush.load, RBush.clear]
    refine ⟨this, ?_⟩
    rw [this, hitems, ← hsearch]
    exact hperm

/-- C5 at a layer holding one marker inside and one outside the viewport. -/
theorem redraw_visible_in_viewport_witness :
    (viewLayer false)._map = some view0 ∧ (viewLayer false)._ctx.isSome = true ∧
    (viewLayer false).indexed ∧
    ∃ L1, _redraw (viewLayer false) true = .done L1 ∧ L1._map = some view0 ∧
      (∀ r ∈ L1._showMarkers.items,
        view0.contains r.data.lat r.data.lng = true ∧ markerData r.data ∈ L1._markers.items) ∧
      ((viewLayer false).options.collisionFlg = false →
        L1._showMarkers.items = dispatchOrder (viewLayer false) view0 ∧
        (L1._showMarkers.items.map (fun r => r.data)).Perm
          ((L1._markers.items.filter
            (fun e => view0.contains e.data.lat e.data.lng)).map (fun e => e.data))) :=
  ⟨rfl, by decide, by unfold Layer.indexed; decide!,
    redraw_visible_in_viewport (viewLayer false) true view0 rfl (by decide)
      (by unfold Layer.indexed; decide!)⟩

/-! ## The master index under the operations -/

/-- Whatever the state, `_redraw` keeps the entries of the master index, `total`,
the map and the options. -/
theorem redraw_keeps (L : Layer) (clear : Bool) :
    (_redraw L clear).layer._markers.items = L._markers.items ∧
    (_redraw L clear).layer.total = L.total ∧
    (_redraw L clear).layer._map = L._map ∧
    (_redraw L clear).layer.options = L.options ∧
    (_redraw L clear).layer._ctx.isSome = L._ctx.isSome := by
  have hfr := redrawStart_frame L clear
  have hms := redrawStart_markers L clear
  cases hmap : L._map with
  | none =>
    cases clear
    · simp [_redraw, hmap, Res.layer]
    · cases hctx : L._ctx <;> simp [_redraw, hctx, hmap, Res.layer]
  | some map =>
    by_cases hok : clear = true → L._ctx.isSome = true
    · rw [redraw_unfold L clear map hmap hok]
      cases collect map (RBush.search MarkerData.toBBox (redrawStart L clear)._markers
          (mapBoxCoords map)) with
      | none => exact ⟨hms, hfr.2.2.2.1, hfr.2.1.trans hmap, hfr.1, hfr.2.2.1⟩
      | some tmp =>
        have hc := drawAll_sameCore (sortTmp (redrawStart L clear).options.collisionFlg tmp)
          (redrawStart L clear)
        simp only
        cases hd : drawAll (redrawStart L clear)
            (sortTmp (redrawStart L clear).options.collisionFlg tmp) with
        | threw L4 =>
          rw [hd] at hc
          simp only [Res.layer] at hc ⊢
          exact ⟨by rw [hc.markers]; exact hms, by rw [hc.total]; exact hfr.2.2.2.1,
            by rw [hc.map]; exact hfr.2.1.trans hmap, by rw [hc.options]; exact hfr.1,
            by rw [hc.ctx]; exact hfr.2.2.1⟩
        | done L4 =>
          rw [hd] at hc
          simp only [Res.layer] at hc ⊢
          have he : (redrawEnd L4 (sortTmp (redrawStart L clear).options.collisionFlg tmp))._markers
                = L4._markers ∧
              (redrawEnd L4 (sortTmp (redrawStart L clear).options.collisionFlg tmp)).total
                = L4.total ∧
              (redrawEnd L4 (sortTmp (redrawStart L clear).options.collisionFlg tmp))._map
                = L4._map ∧
              (redrawEnd L4 (sortTmp (redrawStart L clear).options.collisionFlg tmp)).options
                = L4.options ∧
              (redrawEnd L4 (sortTmp (redrawStart L clear).options.collisionFlg tmp))._ctx
                = L4._ctx := by
            unfold redrawEnd; simp only; split <;> exact ⟨rfl, rfl, rfl, rfl, rfl⟩
          rw [he.1, he.2.1, he.2.2.1, he.2.2.2.1, he.2.2.2.2]
          exact ⟨by rw [hc.markers]; exact hms, by rw [hc.total]; exact hfr.2.2.2.1,
            by rw [hc.map]; exact hfr.2.1.trans hmap, by rw [hc.options]; exact hfr.1,
            by rw [hc.ctx]; exact hfr.2.2.1⟩
    · have hcl : clear = true := by
        cases clear
        · exact absurd (fun h => absurd h (by simp)) hok
        · rfl
      have hctx : L._ctx = none := by
        cases h : L._ctx with
        | none => rfl
        | some ops => exact absurd (fun _ => by simp [h]) hok
      subst hcl
      simp [_redraw, hctx, hmap, Res.layer]

/-- The call `addLayer(m, false)` of a valid marker on a layer with a map. -/
theorem addLayer_false (L : Layer) (m : Marker) (map : MapView) (hmap : L._map = some map)
    (hm : m.pane = "markerPane" ∧ m.icon.isSome = true) :
    addLayer L m false = .done { L with
      _markers := L._markers.insert (markerData m)
      dirty := L.dirty + 1
      total := L.total + 1 } := by
  simp [addLayer, hm.1, hm.2, hmap]

/-- The call `removeLayer(m, false)` of a marker on a layer with a map. -/
theorem removeLayer_false (L : Layer) (m : Marker) (map : MapView) (hmap : L._map = some map) :
    removeLayer L (.marker m) false = .done { L with
      _markers := L._markers.remove (markerData m) sameLeafletId
      total := L.total - 1
      dirty := L.dirty + 1 } := by
  simp [removeLayer, unwrap, hmap]

theorem addEach_spec (ms : List Marker) (L : Layer) (map : MapView) (hmap : L._map = some map)
    (hm : ∀ m ∈ ms, m.pane = "markerPane" ∧ m.icon.isSome = true) :
    ∃ L1, addEach L ms = .done L1 ∧ L1.dirty = L.dirty + ms.length ∧
      L1.total = L.total + ms.length ∧
      L1._markers.items = L._markers.items ++ ms.map markerData ∧
      L1._map = L._map ∧ L1._ctx = L._ctx ∧ L1.options = L.options := by
  induction ms generalizing L with
  | nil => exact ⟨L, rfl, by simp, by simp, by simp, rfl, rfl, rfl⟩
  | cons m ms ih =>
    have h1 := addLayer_false L m map hmap (hm m (List.mem_cons_self m ms))
    obtain ⟨L1, e1, e2, e3, e4, e5, e6, e7⟩ := ih { L with
        _markers := L._markers.insert (markerData m)
        dirty := L.dirty + 1
        total := L.total + 1 } hmap
      (fun m hm1 => hm m (List.mem_cons_of_mem _ hm1))
    refine ⟨L1, by rw [addEach, h1]; exact e1, ?_, ?_, ?_, ?_, ?_, ?_⟩
    · rw [e2]; simp only [List.length_cons]; push_cast; ring
    · rw [e3]; simp only [List.length_cons]; push_cast; ring
    · rw [e4]; simp [RBush.insert]
    · rw [e5]
    · rw [e6]
    · rw [e7]

theorem removeEach_spec (ms : List Marker) (L : Layer) (map : MapView) (hmap : L._map = some map) :
    ∃ L1, removeEach L ms = .done L1 ∧ L1.dirty = L.dirty + ms.length ∧
      L1.total = L.total - ms.length ∧
      L1._markers.items.Sublist L._markers.items ∧
      L1._map = L._map ∧ L1._ctx = L._ctx ∧ L1.options = L.options := by
  induction ms generalizing L with
  | nil => exact ⟨L, rfl, by simp, by simp, List.Sublist.refl _, rfl, rfl, rfl⟩
  | cons m ms ih =>
    have h1 := removeLayer_false L m map hmap
    obtain ⟨L1, e1, e2, e3, e4, e5, e6, e7⟩ := ih { L with
        _markers := L._markers.remove (markerData m) sameLeafletId
        total := L.total - 1
        dirty := L.dirty + 1 } hmap
    refine ⟨L1, by rw [removeEach, h1]; exact e1, ?_, ?_, ?_, ?_, ?_, ?_⟩
    · rw [e2]; simp only [List.length_cons]; push_cast; ring
    · rw [e3]; simp only [List.length_cons]; push_cast; ring
    · exact e4.trans (by simpa [RBush.remove] using List.eraseP_sublist _)
    · rw [e5]
    · rw [e6]
    · rw [e7]

/-- A fresh layer, with or without view, has its master index as `addLayer` fills
it. -/
theorem init_indexed (options : Options) (map : MapView) :
    (init options).indexed ∧ (attach (init options) map).indexed := by
  constructor <;> intro e he <;> simp [init, attach, RBush.empty] at he

/-- The redraw keeps the master index as `addLayer` fills it. -/
theorem redraw_indexed (L : Layer) (clear : Bool) (h : L.indexed) :
    (_redraw L clear).layer.indexed := by
  intro e he
  rw [(redraw_keeps L clear).1] at he
  exact h e he

/-- The call `addLayer` keeps the master index as `addLayer` fills it. -/
theorem addLayer_indexed (L : Layer) (m : Marker) (r : Bool) (h : L.indexed) :
    (addLayer L m r).layer.indexed := by
  unfold addLayer
  split
  · exact h
  · rename_i hm
    have hicon : m.icon.isSome = true := by
      simp only [Bool.not_eq_true', Bool.and_eq_false_iff, not_or, Bool.not_eq_false] at hm
      cases hi : m.icon.isSome with
      | true => rfl
      | false => simp [hi] at hm
    have h1 : Layer.indexed { L with
        _markers := L._markers.insert (markerData m)
        dirty := L.dirty + 1
        total := L.total + 1 } := by
      intro e he
      simp only [RBush.insert, List.mem_append, List.mem_singleton] at he
      rcases he with he | rfl
      · exact h e he
      · exact ⟨rfl, hicon⟩
    simp only
    cases L._map with
    | none => exact h1
    | some map =>
      simp only
      split
      · exact redraw_indexed _ true h1
      · exact h1

/-- The call `removeLayer` keeps the master index as `addLayer` fills it. -/
theorem removeLayer_indexed (L : Layer) (arg : LayerArg) (r : Bool) (h : L.indexed) :
    (removeLayer L arg r).layer.indexed := by
  unfold removeLayer
  cases unwrap arg with
  | entry e => exact h
  | marker m =>
    simp only
    cases L._map with
    | none => exact h
    | some map =>
      have h1 : Layer.indexed { L with
          _markers := L._markers.remove (markerData m) sameLeafletId
          total := L.total - 1
          dirty := L.dirty + 1 } := by
        intro e he
        exact h e ((List.eraseP_sublist _).subset he)
      simp only
      split
      · exact redraw_indexed _ true h1
      · exact h1

/-! ## The rebuild of the master index -/

theorem redrawStart_dirty (L : Layer) (clear : Bool) :
    (redrawStart L clear).dirty = if needsRebuild L.dirty L.total then 0 else L.dirty := by
  unfold redrawStart
  simp only
  split <;> simp [rebuild]

theorem redrawStart_same (L : Layer) (clear : Bool) (h : needsRebuild L.dirty L.total = false) :
    (redrawStart L clear)._markers = L._markers := by
  unfold redrawStart
  simp [h]

/-- With a map, and a drawing context when the surface is to be cleared, the
master index and `dirty` are, after `_redraw`, what they are in its start
state, whether the call returns or not. -/
theorem redraw_counters (L : Layer) (clear : Bool) (map : MapView)
    (hmap : L._map = some map) (hok : clear = true → L._ctx.isSome = true) :
    (_redraw L clear).layer._markers = (redrawStart L clear)._markers ∧
    (_redraw L clear).layer.dirty = (redrawStart L clear).dirty := by
  rw [redraw_unfold L clear map hmap hok]
  cases collect map (RBush.search MarkerData.toBBox (redrawStart L clear)._markers
      (mapBoxCoords map)) with
  | none => exact ⟨rfl, rfl⟩
  | some tmp =>
    have hc := drawAll_sameCore (sortTmp (redrawStart L clear).options.collisionFlg tmp)
      (redrawStart L clear)
    simp only
    cases hd : drawAll (redrawStart L clear)
        (sortTmp (redrawStart L clear).options.collisionFlg tmp) with
    | threw L4 =>
      rw [hd] at hc
      exact ⟨hc.markers, hc.dirty⟩
    | done L4 =>
      rw [hd] at hc
      simp only [Res.layer] at hc ⊢
      have he : (redrawEnd L4 (sortTmp (redrawStart L clear).options.collisionFlg tmp))._markers
            = L4._markers ∧
          (redrawEnd L4 (sortTmp (redrawStart L clear).options.collisionFlg tmp)).dirty
            = L4.dirty := by
        unfold redrawEnd; simp only; split <;> exact ⟨rfl, rfl⟩
      rw [he.1, he.2]
      exact ⟨hc.markers, hc.dirty⟩

/-- With a view attached and an icon on every indexed marker, `_redraw` returns. -/
theorem redraw_returned (L : Layer) (clear : Bool) (map : MapView)
    (hmap : L._map = some map) (hctx : L._ctx.isSome = true)
    (hv : ∀ e ∈ L._markers.items, e.data.icon.isSome = true) :
    (_redraw L clear).returned = true := by
  rw [(redraw_eq L clear map hmap hctx hv).1]
  rfl

/-- The rebuild test on a positive `total`. -/
theorem needsRebuild_pos (dirty total : Int) (ht : 0 < total) :
    needsRebuild dirty total = decide ((1 : ℚ) / 10 ≤ (dirty : ℚ) / (total : ℚ)) := by
  unfold needsRebuild
  rw [if_neg (by omega)]

theorem manyMarkers_valid (n : Nat) :
    ∀ m ∈ manyMarkers n, m.pane = "markerPane" ∧ m.icon.isSome = true := by
  intro m hm
  obtain ⟨i, _, rfl⟩ := List.mem_map.mp hm
  exact ⟨rfl, rfl⟩

theorem addLayers_eq (L : Layer) (ms : List Marker) (r : Bool) (L1 : Layer)
    (h : addEach L ms = .done L1) :
    addLayers L ms r = if r then _redraw L1 true else .done L1 := by
  unfold addLayers
  rw [h]

/-- The state of `churnLayer`: the view is attached, every indexed marker has an
icon, `total` reads 850, and `dirty` reads 150 when `addLayers` redrew (and so
rebuilt) and 1150 when it did not. -/
theorem churnLayer_state (r : Bool) :
    (churnLayer r)._map = some view0 ∧ (churnLayer r)._ctx.isSome = true ∧
    (∀ e ∈ (churnLayer r)._markers.items, e.data.icon.isSome = true) ∧
    (churnLayer r).total = 850 ∧ (churnLayer r).dirty = if r then 150 else 1150 := by
  obtain ⟨La, a1, a2, a3, a4, a5, a6, _⟩ := addEach_spec (manyMarkers 1000) (layer0 false) view0 rfl
    (manyMarkers_valid 1000)
  have hlen : (manyMarkers 1000).length = 1000 := by simp [manyMarkers]
  have hlen2 : (manyMarkers 150).length = 150 := by simp [manyMarkers]
  have hLa_map : La._map = some view0 := by rw [a5]; rfl
  have hLa_ctx : La._ctx.isSome = true := by rw [a6]; rfl
  have hLa_v : ∀ e ∈ La._markers.items, e.data.icon.isSome = true := by
    intro e he
    rw [a4] at he
    have h0 : (layer0 false)._markers.items = [] := rfl
    rw [h0, List.nil_append] at he
    have : e ∈ (manyMarkers 1000).map markerData := he
    obtain ⟨m, hm, rfl⟩ := List.mem_map.mp this
    exact (manyMarkers_valid 1000 m hm).2
  have hLa_d : La.dirty = 1000 := by rw [a2, hlen]; rfl
  have hLa_t : La.total = 1000 := by rw [a3, hlen]; rfl
  -- the layer after `addLayers`
  obtain ⟨Lb, hb, hb_map, hb_ctx, hb_v, hb_t, hb_d⟩ : ∃ Lb,
      (addLayers (layer0 false) (manyMarkers 1000) r).layer = Lb ∧ Lb._map = some view0 ∧
      Lb._ctx.isSome = true ∧ (∀ e ∈ Lb._markers.items, e.data.icon.isSome = true) ∧
      Lb.total = 1000 ∧ Lb.dirty = if r then 0 else 1000 := by
    cases r with
    | false => exact ⟨La, by rw [addLayers_eq _ _ _ La a1]; rfl, hLa_map, hLa_ctx, hLa_v, hLa_t, hLa_d⟩
    | true =>
      obtain ⟨L1, h1, h2, h3, _, h5, _, h7, h8⟩ := redraw_frame La true view0 hLa_map hLa_ctx hLa_v
      refine ⟨L1, by rw [addLayers_eq _ _ _ La a1, if_pos rfl, h1]; rfl, h2, h3, ?_, by rw [h5, hLa_t], ?_⟩
      · intro e he; rw [h7] at he; exact hLa_v e he
      · rw [h8, redrawStart_dirty, hLa_d, hLa_t]
        have : needsRebuild 1000 1000 = true := by decide!
        simp [this]
  obtain ⟨Lc, c1, c2, c3, c4, c5, c6, _⟩ := removeEach_spec (manyMarkers 150) Lb view0 hb_map
  have hc : churnLayer r = Lc := by
    unfold churnLayer
    rw [hb, c1]
    rfl
  rw [hc]
  refine ⟨by rw [c5]; exact hb_map, by rw [c6]; exact hb_ctx,
    fun e he => hb_v e (c4.subset he), by rw [c3, hb_t, hlen2]; rfl, ?_⟩
  rw [c2, hb_d, hlen2]
  cases r <;> rfl

/-- C6: on a layer with a view attached and `total` positive, `_redraw` ends, when
`dirty / total >= 0.1` at its start, with `dirty` at 0 and the master index
holding the same entries, and otherwise with `dirty` and the master index
unchanged; it returns when every indexed marker has an icon.  After 1000
markers were added by `addLayers` and 150 removed one by one without redraw,
the test holds, `redraw` returns and `dirty` reads 0. -/
theorem redraw_rebuild (L : Layer) (clear : Bool) (map : MapView)
    (hmap : L._map = some map) (hctx : L._ctx.isSome = true) (ht : 0 < L.total) :
    (((1 : ℚ) / 10 ≤ (L.dirty : ℚ) / (L.total : ℚ) →
        (_redraw L clear).layer.dirty = 0 ∧
        (_redraw L clear).layer._markers.items.Perm L._markers.items) ∧
      ((L.dirty : ℚ) / (L.total : ℚ) < 1 / 10 →
        (_redraw L clear).layer.dirty = L.dirty ∧
        (_redraw L clear).layer._markers = L._markers) ∧
      ((∀ e ∈ L._markers.items, e.data.icon.isSome = true) →
        (_redraw L clear).returned = true)) ∧
    (∀ r : Bool,
      (1 : ℚ) / 10 ≤ ((churnLayer r).dirty : ℚ) / ((churnLayer r).total : ℚ) ∧
      (redraw (churnLayer r)).returned = true ∧
      (redraw (churnLayer r)).layer.dirty = 0) := by
  have main : ∀ (L : Layer) (clear : Bool) (map : MapView), L._map = some map →
      L._ctx.isSome = true → 0 < L.total →
      ((1 : ℚ) / 10 ≤ (L.dirty : ℚ) / (L.total : ℚ) →
        (_redraw L clear).layer.dirty = 0 ∧
        (_redraw L clear).layer._markers.items.Perm L._markers.items) ∧
      ((L.dirty : ℚ) / (L.total : ℚ) < 1 / 10 →
        (_redraw L clear).layer.dirty = L.dirty ∧
        (_redraw L clear).layer._markers = L._markers) := by
    intro L clear map hmap hctx ht
    obtain ⟨hm, hd⟩ := redraw_counters L clear map hmap (fun _ => hctx)
    have hn := needsRebuild_pos L.dirty L.total ht
    constructor
    · intro h
      have hn1 : needsRebuild L.dirty L.total = true := by rw [hn]; exact decide_eq_true h
      refine ⟨by rw [hd, redrawStart_dirty, hn1]; rfl, ?_⟩
      rw [(redraw_keeps L clear).1]
    · intro h
      have hn1 : needsRebuild L.dirty L.total = false := by
        rw [hn]; exact decide_eq_false (not_le.mpr h)
      exact ⟨by rw [hd, redrawStart_dirty, hn1]; rfl, by rw [hm, redrawStart_same L clear hn1]⟩
  refine ⟨⟨(main L clear map hmap hctx ht).1, (main L clear map hmap hctx ht).2,
    fun hv => redraw_returned L clear map hmap hctx hv⟩, ?_⟩
  intro r
  obtain ⟨s1, s2, s3, s4, s5⟩ := churnLayer_state r
  have hratio : (1 : ℚ) / 10 ≤ ((churnLayer r).dirty : ℚ) / ((churnLayer r).total : ℚ) := by
    rw [s4, s5]
    cases r <;> norm_num
  exact ⟨hratio, redraw_returned _ true view0 s1 s2 s3,
    ((main (churnLayer r) true view0 s1 s2 (by rw [s4]; norm_num)).1 hratio).1⟩

/-- C6 at the layer of 1000 markers added and 150 removed. -/
theorem redraw_rebuild_witness :
    (churnLayer false)._map = some view0 ∧ (churnLayer false)._ctx.isSome = true ∧
    0 < (churnLayer false).total ∧
    ((1 : ℚ) / 10 ≤ ((churnLayer false).dirty : ℚ) / ((churnLayer false).total : ℚ) →
        (_redraw (churnLayer false) true).layer.dirty = 0 ∧
        (_redraw (churnLayer false) true).layer._markers.items.Perm
          (churnLayer false)._markers.items) :=
  ⟨(churnLayer_state false).1, (churnLayer_state false).2.1,
    by rw [(churnLayer_state false).2.2.2.1]; norm_num,
    (redraw_rebuild (churnLayer false) true view0 (churnLayer_state false).1
      (churnLayer_state false).2.1 (by rw [(churnLayer_state false).2.2.2.1]; norm_num)).1.1⟩

/-! ## The rebuild test at `total` 0 -/

/-- C7, as stated, fails after one marker was added and removed again: `total`
reads 0 and `dirty` reads 2, the test `dirty / total >= 0.1` holds (the
quotient is `Infinity`), `redraw` returns, and `dirty` reads 0 afterwards, not
2. -/
theorem redraw_emptied_resets_dirty :
    emptiedLayer.total = 0 ∧ emptiedLayer.dirty = 2 ∧
    needsRebuild emptiedLayer.dirty emptiedLayer.total = true ∧
    (redraw emptiedLayer).returned = true ∧
    (redraw emptiedLayer).layer.dirty = 0 := by
  decide!

/-- C7, amended: on a layer with a view attached and `total` at 0, the rebuild
test raises no error: `_redraw` returns when every indexed marker has an icon,
and it keeps the entries of the master index.  With `dirty` positive the test
holds and the rebuild runs, `dirty` is 0 afterwards; with `dirty` at 0 (or
below) the test does not hold, `dirty` and the master index are unchanged. -/
theorem redraw_zero_total (L : Layer) (clear : Bool) (map : MapView)
    (hmap : L._map = some map) (hctx : L._ctx.isSome = true) (ht : L.total = 0) :
    (_redraw L clear).layer._markers.items = L._markers.items ∧
    (0 < L.dirty → needsRebuild L.dirty L.total = true ∧ (_redraw L clear).layer.dirty = 0) ∧
    (L.dirty ≤ 0 → needsRebuild L.dirty L.total = false ∧
      (_redraw L clear).layer.dirty = L.dirty ∧ (_redraw L clear).layer._markers = L._markers) ∧
    ((∀ e ∈ L._markers.items, e.data.icon.isSome = true) →
      (_redraw L clear).returned = true) := by
  obtain ⟨hm, hd⟩ := redraw_counters L clear map hmap (fun _ => hctx)
  refine ⟨(redraw_keeps L clear).1, ?_, ?_, fun hv => redraw_returned L clear map hmap hctx hv⟩
  · intro h
    have hn : needsRebuild L.dirty L.total = true := by
      unfold needsRebuild; rw [if_pos ht]; exact decide_eq_true h
    exact ⟨hn, by rw [hd, redrawStart_dirty, hn]; rfl⟩
  · intro h
    have hn : needsRebuild L.dirty L.total = false := by
      unfold needsRebuild; rw [if_pos ht]; exact decide_eq_false (by omega)
    exact ⟨hn, by rw [hd, redrawStart_dirty, hn]; rfl, by rw [hm, redrawStart_same L clear hn]⟩

/-- The amended C7 at the layer after one marker was added and removed. -/
theorem redraw_zero_total_witness :
    emptiedLayer._map = some view0 ∧ emptiedLayer._ctx.isSome = true ∧ emptiedLayer.total = 0 ∧
    (_redraw emptiedLayer true).layer._markers.items = emptiedLayer._markers.items ∧
    (0 < emptiedLayer.dirty → needsRebuild emptiedLayer.dirty emptiedLayer.total = true ∧
      (_redraw emptiedLayer true).layer.dirty = 0) :=
  ⟨rfl, by decide, by decide,
    (redraw_zero_total emptiedLayer true view0 rfl (by decide) (by decide)).1,
    (redraw_zero_total emptiedLayer true view0 rfl (by decide) (by decide)).2.1⟩

/-! ## A layer without view -/

/-- C8, as stated, fails on a fresh layer, which has no map and no drawing
context: `addLayer` of a valid marker inserts its entry and counts `dirty` and
`total` up before it raises the error on the missing map; `removeLayer` and
`redraw` raise the error as well. -/
theorem unattached_calls_raise :
    (init ⟨false⟩)._map.isSome = false ∧ (init ⟨false⟩)._ctx.isSome = false ∧
    (addLayer (init ⟨false⟩) markerEast true).returned = false ∧
    (addLayer (init ⟨false⟩) markerEast true).layer._markers.items = [markerData markerEast] ∧
    (addLayer (init ⟨false⟩) markerEast true).layer.dirty = 1 ∧
    (addLayer (init ⟨false⟩) markerEast true).layer.total = 1 ∧
    (removeLayer (init ⟨false⟩) (.marker markerEast) true).returned = false ∧
    (redraw (init ⟨false⟩)).returned = false := by
  decide

/-- C8, amended: on a layer with no map and no drawing context, `_redraw` without
the clear flag returns and leaves the master index and its counters unchanged;
`redraw` and `removeLayer` leave the master index and its counters unchanged;
`addLayer` of a valid marker is not a no-op: it inserts the entry of the marker
and counts `dirty` and `total` up by one. -/
theorem unattached_calls (L : Layer) (m : Marker) (arg : LayerArg) (r : Bool)
    (hmap : L._map = none) (hctx : L._ctx = none)
    (hm : m.pane = "markerPane" ∧ m.icon.isSome = true) :
    ((_redraw L false).returned = true ∧ (_redraw L false).layer._markers = L._markers ∧
      (_redraw L false).layer.dirty = L.dirty ∧ (_redraw L false).layer.total = L.total) ∧
    ((redraw L).layer._markers = L._markers ∧ (redraw L).layer.dirty = L.dirty ∧
      (redraw L).layer.total = L.total) ∧
    ((removeLayer L arg r).layer._markers = L._markers ∧
      (removeLayer L arg r).layer.dirty = L.dirty ∧
      (removeLayer L arg r).layer.total = L.total) ∧
    ((addLayer L m r).layer._markers = L._markers.insert (markerData m) ∧
      (addLayer L m r).layer.dirty = L.dirty + 1 ∧
      (addLayer L m r).layer.total = L.total + 1) := by
  refine ⟨?_, ?_, ?_, ?_⟩
  · simp [_redraw, hmap, Res.returned, Res.layer]
  · simp [redraw, _redraw, hctx, Res.layer]
  · unfold removeLayer
    cases unwrap arg <;> simp [hmap, Res.layer]
  · simp [addLayer, hm.1, hm.2, hmap, Res.layer]

/-- The amended C8 at a fresh layer. -/
theorem unattached_calls_witness :
    (init ⟨false⟩)._map = none ∧ (init ⟨false⟩)._ctx = none ∧
    (markerEast.pane = "markerPane" ∧ markerEast.icon.isSome = true) ∧
    ((_redraw (init ⟨false⟩) false).returned = true ∧
      (_redraw (init ⟨false⟩) false).layer._markers = (init ⟨false⟩)._markers ∧
      (_redraw (init ⟨false⟩) false).layer.dirty = (init ⟨false⟩).dirty ∧
      (_redraw (init ⟨false⟩) false).layer.total = (init ⟨false⟩).total) :=
  ⟨rfl, rfl, by decide,
    (unattached_calls (init ⟨false⟩) markerEast (.marker markerEast) true rfl rfl
      (by decide)).1⟩

/-! ## The image cache -/

theorem lookup_append_new (key : String) (e : ImageEntry) (l : List (String × ImageEntry))
    (h : l.lookup key = none) : (l ++ [(key, e)]).lookup key = some e := by
  induction l with
  | nil => simp [List.lookup]
  | cons kv l ih =>
    obtain ⟨k, v⟩ := kv
    rw [List.lookup_cons] at h
    rw [List.cons_append, List.lookup_cons]
    cases hk : key == k with
    | true => rw [hk] at h; simp at h
    | false => rw [hk] at h; exact ih h

theorem lookup_setEntry (key : String) (e0 e : ImageEntry) (l : List (String × ImageEntry))
    (h : l.lookup key = some e0) : (setEntry key e l).lookup key = some e := by
  induction l with
  | nil => simp [List.lookup] at h
  | cons kv l ih =>
    obtain ⟨k, v⟩ := kv
    rw [List.lookup_cons] at h
    unfold setEntry
    by_cases hk : k = key
    · rw [if_pos hk, List.lookup_cons]
      simp [hk]
    · rw [if_neg hk, List.lookup_cons]
      have : (key == k) = false := by
        simpa using fun h1 : key = k => hk h1.symm
      rw [this] at h ⊢
      exact ih h

/-- The request of a marker without bitmap, for an address whose load is under
way: nothing is drawn, no load is started, and the request joins the preload
list. -/
theorem resolveIcon_pending (L : Layer) (m : Marker) (ic : IconOptions) (p : Point)
    (u : String) (pend : List (Marker × Point))
    (hu : ic.iconUrl = some u) (himg : L.canvas_img.lookup m.id = none)
    (hc : L._imageLookup.lookup u = some ⟨false, pend⟩) :
    ∃ L1, resolveIcon L m ic p = .done L1 ∧ L1._ctx = L._ctx ∧ L1.loads = L.loads ∧
      L1.options = L.options ∧
      L1._imageLookup.lookup u = some ⟨false, pend ++ [(m, p)]⟩ ∧
      L1.canvas_img = (m.id, u) :: L.canvas_img := by
  have hg : cacheGet L._imageLookup u = some (CacheValue.entry ⟨false, pend⟩) := by
    simp [cacheGet, hc]
  unfold resolveIcon
  simp only [himg, hu, urlKey, hg, Option.isSome_none, Bool.false_eq_true, if_false,
    beq_self_eq_true, if_true]
  exact ⟨_, rfl, rfl, rfl, rfl, lookup_setEntry u _ _ _ hc, rfl⟩

theorem cacheGet_none (cache : List (String × ImageEntry)) (u : String) :
    cacheGet cache u = none ↔ cache.lookup u = none ∧ u ∉ objectPrototypeKeys := by
  unfold cacheGet
  cases h : cache.lookup u with
  | some e => simp
  | none =>
    by_cases hk : u ∈ objectPrototypeKeys
    · simp [hk]
    · simp [hk]

/-- The request of a marker without bitmap, for an address under which the cache
answers `undefined`: nothing is drawn, one load is started, and the preload list
holds the request. -/
theorem resolveIcon_new (L : Layer) (m : Marker) (ic : IconOptions) (p : Point) (u : String)
    (hu : ic.iconUrl = some u) (himg : L.canvas_img.lookup m.id = none)
    (hg : cacheGet L._imageLookup u = none) :
    ∃ L1, resolveIcon L m ic p = .done L1 ∧ L1._ctx = L._ctx ∧ L1.loads = L.loads ++ [u] ∧
      L1.options = L.options ∧
      L1._imageLookup.lookup u = some ⟨false, [(m, p)]⟩ ∧
      L1.canvas_img = (m.id, u) :: L.canvas_img := by
  have hc := ((cacheGet_none _ _).mp hg).1
  unfold resolveIcon
  simp only [himg, hu, urlKey, hg, Option.isSome_none, Bool.false_eq_true, if_false]
  exact ⟨_, rfl, rfl, rfl, rfl, lookup_append_new u _ _ hc, rfl⟩

theorem collisionStep_keeps (L L1 : Layer) (m : Marker) (ic : IconOptions) (p : Point)
    (h : collisionStep L m ic p = some L1) :
    L1.canvas_img = L.canvas_img ∧ L1._imageLookup = L._imageLookup ∧ L1._ctx = L._ctx ∧
    L1.loads = L.loads ∧ L1.options = L.options := by
  unfold collisionStep at h
  simp only at h
  split at h
  · split at h
    · exact absurd h (by simp)
    · cases h
      exact ⟨rfl, rfl, rfl, rfl, rfl⟩
  · cases h
    exact ⟨rfl, rfl, rfl, rfl, rfl⟩

/-- A request either stops at the collision step, and then changes nothing, or
goes on to the image step from a state with the same cache, bitmaps, drawing
context, loads and options. -/
theorem drawMarker_request (L : Layer) (r : Marker × Point) (ic : IconOptions)
    (hi : r.1.icon = some ic) :
    (reachesImageStep L r = false ∧ _drawMarker L r.1 (some r.2) = .done L) ∨
    (reachesImageStep L r = true ∧ ∃ L1, _drawMarker L r.1 (some r.2) = resolveIcon L1 r.1 ic r.2 ∧
      L1.canvas_img = L.canvas_img ∧ L1._imageLookup = L._imageLookup ∧ L1._ctx = L._ctx ∧
      L1.loads = L.loads ∧ L1.options = L.options) := by
  unfold _drawMarker reachesImageStep
  simp only [hi]
  cases h : collisionStep L r.1 ic r.2 with
  | none => exact Or.inl ⟨rfl, rfl⟩
  | some L1 => exact Or.inr ⟨rfl, L1, rfl, collisionStep_keeps L L1 r.1 ic r.2 h⟩

theorem lookup_other (id id1 : Nat) (u : String) (l : List (Nat × String)) (h : id ≠ id1)
    (hl : l.lookup id = none) : ((id1, u) :: l).lookup id = none := by
  rw [List.lookup_cons]
  have : (id == id1) = false := by simpa using h
  rw [this]
  exact hl

/-- Requests for one address whose load is under way, for distinct markers
without bitmap: nothing is drawn, no load is started, and the requests that reach
the image step join the preload list in order. -/
theorem requestEach_pending (reqs : List (Marker × Point)) (L : Layer) (u : String)
    (ops : List CanvasOp) (pend : List (Marker × Point))
    (hctx : L._ctx = some ops) (hc : L._imageLookup.lookup u = some ⟨false, pend⟩)
    (hreq : ∀ r ∈ reqs, ∃ ic, r.1.icon = some ic ∧ ic.iconUrl = some u)
    (hnd : (reqs.map (fun r => r.1.id)).Nodup)
    (himg : ∀ r ∈ reqs, L.canvas_img.lookup r.1.id = none) :
    ∃ L1, requestEach L reqs = .done L1 ∧ L1._ctx = some ops ∧ L1.loads = L.loads ∧
      L1._imageLookup.lookup u = some ⟨false, pend ++ reaching L reqs⟩ := by
  induction reqs generalizing L pend with
  | nil => exact ⟨L, rfl, hctx, rfl, by simpa [reaching] using hc⟩
  | cons r rest ih =>
    obtain ⟨ic, hi, hu⟩ := hreq r (List.mem_cons_self r rest)
    have hreq1 : ∀ r ∈ rest, ∃ ic, r.1.icon = some ic ∧ ic.iconUrl = some u :=
      fun r hr => hreq r (List.mem_cons_of_mem _ hr)
    rw [List.map_cons, List.nodup_cons] at hnd
    have hcons : reaching L (r :: rest) =
        if reachesImageStep L r then r :: reaching (_drawMarker L r.1 (some r.2)).layer rest
        else reaching (_drawMarker L r.1 (some r.2)).layer rest := rfl
    rcases drawMarker_request L r ic hi with ⟨hacc, hd⟩ | ⟨hacc, L0, hd, k1, k2, k3, k4, _⟩
    · obtain ⟨L1, e1, e2, e3, e4⟩ := ih L pend hctx hc hreq1 hnd.2
        (fun r hr => himg r (List.mem_cons_of_mem _ hr))
      refine ⟨L1, by rw [requestEach, hd]; exact e1, e2, e3, ?_⟩
      rw [hcons, hacc, hd]
      simpa [Res.layer] using e4
    · obtain ⟨L2, f1, f2, f3, _, f5, f6⟩ := resolveIcon_pending L0 r.1 ic r.2 u pend hu
        (by rw [k1]; exact himg r (List.mem_cons_self r rest)) (by rw [k2]; exact hc)
      have himg2 : ∀ r1 ∈ rest, L2.canvas_img.lookup r1.1.id = none := by
        intro r1 hr1
        rw [f6, k1]
        refine lookup_other _ _ _ _ ?_ (himg r1 (List.mem_cons_of_mem _ hr1))
        intro heq
        exact hnd.1 (List.mem_map.mpr ⟨r1, hr1, heq⟩)
      obtain ⟨L1, e1, e2, e3, e4⟩ := ih L2 (pend ++ [r]) (by rw [f2, k3]; exact hctx) f5 hreq1
        hnd.2 himg2
      refine ⟨L1, by rw [requestEach, hd, f1]; exact e1, e2, by rw [e3, f3, k4], ?_⟩
      rw [hcons, hacc, hd, f1]
      simpa [Res.layer] using e4

/-- Requests for one address not met before, for distinct markers without bitmap:
nothing is drawn; when no request reaches the image step nothing else changes,
and otherwise exactly one load is started and the preload list holds the
requests that reach the image step, in order. -/
theorem requestEach_new (reqs : List (Marker × Point)) (L : Layer) (u : String)
    (ops : List CanvasOp)
    (hctx : L._ctx = some ops) (hc : cacheGet L._imageLookup u = none)
    (hreq : ∀ r ∈ reqs, ∃ ic, r.1.icon = some ic ∧ ic.iconUrl = some u)
    (hnd : (reqs.map (fun r => r.1.id)).Nodup)
    (himg : ∀ r ∈ reqs, L.canvas_img.lookup r.1.id = none) :
    ∃ L1, requestEach L reqs = .done L1 ∧ L1._ctx = some ops ∧
      (reaching L reqs = [] → L1.loads = L.loads) ∧
      (reaching L reqs ≠ [] → L1.loads = L.loads ++ [u] ∧
        L1._imageLookup.lookup u = some ⟨false, reaching L reqs⟩) := by
  induction reqs generalizing L with
  | nil => exact ⟨L, rfl, hctx, fun _ => rfl, fun h => absurd rfl h⟩
  | cons r rest ih =>
    obtain ⟨ic, hi, hu⟩ := hreq r (List.mem_cons_self r rest)
    have hreq1 : ∀ r ∈ rest, ∃ ic, r.1.icon = some ic ∧ ic.iconUrl = some u :=
      fun r hr => hreq r (List.mem_cons_of_mem _ hr)
    rw [List.map_cons, List.nodup_cons] at hnd
    have hcons : reaching L (r :: rest) =
        if reachesImageStep L r then r :: reaching (_drawMarker L r.1 (some r.2)).layer rest
        else reaching (_drawMarker L r.1 (some r.2)).layer rest := rfl
    rcases drawMarker_request L r ic hi with ⟨hacc, hd⟩ | ⟨hacc, L0, hd, k1, k2, k3, k4, _⟩
    · obtain ⟨L1, e1, e2, e3, e4⟩ := ih L hctx hc hreq1 hnd.2
        (fun r hr => himg r (List.mem_cons_of_mem _ hr))
      have hre : reaching L (r :: rest) = reaching L rest := by
        rw [hcons, hacc, hd]; rfl
      exact ⟨L1, by rw [requestEach, hd]; exact e1, e2, by rw [hre]; exact e3,
        by rw [hre]; exact e4⟩
    · obtain ⟨L2, f1, f2, f3, _, f5, f6⟩ := resolveIcon_new L0 r.1 ic r.2 u hu
        (by rw [k1]; exact himg r (List.mem_cons_self r rest)) (by rw [k2]; exact hc)
      have himg2 : ∀ r1 ∈ rest, L2.canvas_img.lookup r1.1.id = none := by
        intro r1 hr1
        rw [f6, k1]
        refine lookup_other _ _ _ _ ?_ (himg r1 (List.mem_cons_of_mem _ hr1))
        intro heq
        exact hnd.1 (List.mem_map.mpr ⟨r1, hr1, heq⟩)
      obtain ⟨L1, e1, e2, e3, e4⟩ := requestEach_pending rest L2 u ops [r]
        (by rw [f2, k3]; exact hctx) f5 hreq1 hnd.2 himg2
      have hre : reaching L (r :: rest) = r :: reaching L2 rest := by
        rw [hcons, hacc, hd, f1]; rfl
      refine ⟨L1, by rw [requestEach, hd, f1]; exact e1, e2, ?_, ?_⟩
      · intro h; rw [hre] at h; exact absurd h (by simp)
      · intro _
        rw [hre]
        exact ⟨by rw [e3, f3, k4], by simpa using e4⟩

/-- The handler `onload` paints a preload list of image requests in order. -/
theorem paintAll_images (es : List (Marker × Point)) (L : Layer) (u : String)
    (ops : List CanvasOp) (hctx : L._ctx = some ops) (hu : u ≠ "")
    (hi : ∀ e ∈ es, e.1.icon.isSome = true) :
    ∃ L2, paintAll (some u) L es = .done L2 ∧ L2.loads = L.loads ∧
      L2._ctx = some (ops ++ es.map (fun e => CanvasOp.drawImage e.1 e.2)) := by
  induction es generalizing L ops with
  | nil => exact ⟨L, rfl, rfl, by simpa using hctx⟩
  | cons e es ih =>
    obtain ⟨ic, hic⟩ := Option.isSome_iff_exists.mp (hi e (List.mem_cons_self e es))
    have hp : paintIcon L (some u) e.1 e.2 =
        .done { L with _ctx := some (ops ++ [CanvasOp.drawImage e.1 e.2]) } := by
      simp [paintIcon, truthyUrl, hu, _drawImage, hic, hctx]
    obtain ⟨L2, h1, h2, h3⟩ := ih { L with _ctx := some (ops ++ [CanvasOp.drawImage e.1 e.2]) }
      (ops ++ [CanvasOp.drawImage e.1 e.2]) rfl (fun e he => hi e (List.mem_cons_of_mem _ he))
    exact ⟨L2, by rw [paintAll, hp]; exact h1, h2, by rw [h3]; simp⟩

theorem onload_flush (L : Layer) (u : String) (ops : List CanvasOp) (pend : List (Marker × Point))
    (hctx : L._ctx = some ops) (hu : u ≠ "")
    (hc : L._imageLookup.lookup u = some ⟨false, pend⟩)
    (hi : ∀ e ∈ pend, e.1.icon.isSome = true) :
    ∃ L2, onload L (some u) = .done L2 ∧ L2.loads = L.loads ∧
      L2._ctx = some (ops ++ pend.map (fun e => CanvasOp.drawImage e.1 e.2)) := by
  unfold onload
  simp only [urlKey, hc]
  exact paintAll_images pend _ u ops hctx hu hi

theorem reaching_sublist (reqs : List (Marker × Point)) (L : Layer) :
    (reaching L reqs).Sublist reqs := by
  induction reqs generalizing L with
  | nil => exact List.Sublist.slnil
  | cons r rest ih =>
    unfold reaching
    split
    · exact (ih _).cons₂ r
    · exact (ih _).cons r

theorem reaching_off (reqs : List (Marker × Point)) (L : Layer)
    (h : L.options.collisionFlg = false) (hi : ∀ r ∈ reqs, r.1.icon.isSome = true) :
    reaching L reqs = reqs := by
  induction reqs generalizing L with
  | nil => rfl
  | cons r rest ih =>
    obtain ⟨ic, hic⟩ := Option.isSome_iff_exists.mp (hi r (List.mem_cons_self r rest))
    have hacc : reachesImageStep L r = true := by
      simp [reachesImageStep, hic, collisionStep, h]
    have hcons : reaching L (r :: rest) =
        if reachesImageStep L r then r :: reaching (_drawMarker L r.1 (some r.2)).layer rest
        else reaching (_drawMarker L r.1 (some r.2)).layer rest := rfl
    rw [hcons, hacc, if_pos rfl,
      ih _ (by rw [(drawMarker_sameCore L r.1 (some r.2)).options]; exact h)
        (fun r hr => hi r (List.mem_cons_of_mem _ hr))]

/-- C9, as stated, fails in two ways.  Two requests for the same marker (two
redraws before the load completes): one load is started, but the second request
is drawn at request time and never joins the preload list, so the completion
paints one request, not two.  Two requests for two markers at one position with
`collisionFlg` on: the second is abandoned at the collision step and is never
painted. -/
theorem image_requests_not_all_deferred :
    (requestEach (layer0 false) repeatedRequests).returned = true ∧
    (requestEach (layer0 false) repeatedRequests).layer.loads = ["a.png"] ∧
    (requestEach (layer0 false) repeatedRequests).layer._ctx =
      some [CanvasOp.drawImage markerEast ⟨160, 5⟩] ∧
    (onload (requestEach (layer0 false) repeatedRequests).layer (some "a.png")).layer._ctx =
      some [CanvasOp.drawImage markerEast ⟨160, 5⟩, CanvasOp.drawImage markerEast ⟨120, 5⟩] ∧
    (requestEach (layer0 true) stackedRequests).returned = true ∧
    (requestEach (layer0 true) stackedRequests).layer._ctx = some [] ∧
    (onload (requestEach (layer0 true) stackedRequests).layer (some "a.png")).layer._ctx =
      some [CanvasOp.drawImage markerM2 ⟨0, 0⟩] := by
  decide!

/-- An icon address that names an inherited property of the cache object is found
there without any load: the request is drawn at once and no load is started. -/
theorem inherited_address_drawn_at_once :
    cacheGet (layer0 false)._imageLookup "a.png" = none ∧
    cacheGet (layer0 false)._imageLookup "toString" = some CacheValue.inherited ∧
    (requestEach (layer0 false) [(markerToString, ⟨0, 0⟩)]).returned = true ∧
    (requestEach (layer0 false) [(markerToString, ⟨0, 0⟩)]).layer.loads = [] ∧
    (requestEach (layer0 false) [(markerToString, ⟨0, 0⟩)]).layer._ctx =
      some [CanvasOp.drawImage markerToString ⟨0, 0⟩] := by
  decide!

/-- C9, amended: take a layer with a drawing context, a non-empty icon address
`u` under which the image cache still answers `undefined` (no entry is stored,
and `u` is not the name of an inherited property), and a sequence of requests
for pairwise distinct markers with icon address `u` and without bitmap, issued
before the load completes.  The sequence returns and nothing is drawn at request
time.  With `collisionFlg` off every request reaches the image step.  When no
request reaches it no load is started; when at least one does, exactly one load
is started, for `u`, and the completion of the load starts no further load and
draws each request that reached the image step exactly once, in the order of
the requests. -/
theorem image_requests (L : Layer) (u : String) (ops : List CanvasOp)
    (reqs : List (Marker × Point))
    (hctx : L._ctx = some ops) (hu : u ≠ "") (hc : cacheGet L._imageLookup u = none)
    (hreq : ∀ r ∈ reqs, ∃ ic, r.1.icon = some ic ∧ ic.iconUrl = some u)
    (hnd : (reqs.map (fun r => r.1.id)).Nodup)
    (himg : ∀ r ∈ reqs, L.canvas_img.lookup r.1.id = none) :
    (L.options.collisionFlg = false → reaching L reqs = reqs) ∧
    ∃ L1, requestEach L reqs = .done L1 ∧ L1._ctx = some ops ∧
      (reaching L reqs = [] → L1.loads = L.loads) ∧
      (reaching L reqs ≠ [] → L1.loads = L.loads ++ [u] ∧
        ∃ L2, onload L1 (some u) = .done L2 ∧ L2.loads = L1.loads ∧
          L2._ctx =
            some (ops ++ (reaching L reqs).map (fun r => CanvasOp.drawImage r.1 r.2))) := by
  have hi : ∀ r ∈ reqs, r.1.icon.isSome = true := by
    intro r hr
    obtain ⟨ic, h1, _⟩ := hreq r hr
    rw [h1]; rfl
  refine ⟨fun h => reaching_off reqs L h hi, ?_⟩
  obtain ⟨L1, e1, e2, e3, e4⟩ := requestEach_new reqs L u ops hctx hc hreq hnd himg
  refine ⟨L1, e1, e2, e3, ?_⟩
  intro hne
  obtain ⟨e5, e6⟩ := e4 hne
  obtain ⟨L2, g1, g2, g3⟩ := onload_flush L1 u ops (reaching L reqs) e2 hu e6
    (fun e he => hi e ((reaching_sublist reqs L).subset he))
  exact ⟨e5, L2, g1, g2, g3⟩

/-- The amended C9 at two requests for two markers 120 pixels apart, with
`collisionFlg` on: both reach the image step and both are drawn on completion. -/
theorem image_requests_witness :
    (layer0 true)._ctx = some [] ∧ "a.png" ≠ "" ∧
    cacheGet (layer0 true)._imageLookup "a.png" = none ∧
    (∀ r ∈ apartRequests, ∃ ic, r.1.icon = some ic ∧ ic.iconUrl = some "a.png") ∧
    (apartRequests.map (fun r => r.1.id)).Nodup ∧
    (∀ r ∈ apartRequests, (layer0 true).canvas_img.lookup r.1.id = none) ∧
    reaching (layer0 true) apartRequests = apartRequests ∧
    ∃ L1, requestEach (layer0 true) apartRequests = .done L1 ∧ L1._ctx = some [] ∧
      (reaching (layer0 true) apartRequests = [] → L1.loads = (layer0 true).loads) ∧
      (reaching (layer0 true) apartRequests ≠ [] →
        L1.loads = (layer0 true).loads ++ ["a.png"] ∧
        ∃ L2, onload L1 (some "a.png") = .done L2 ∧ L2.loads = L1.loads ∧
          L2._ctx = some ([] ++ (reaching (layer0 true) apartRequests).map
            (fun r => CanvasOp.drawImage r.1 r.2))) :=
  ⟨rfl, by decide, by decide, by decide, by decide, by decide, by decide!,
    (image_requests (layer0 true) "a.png" [] apartRequests rfl (by decide) (by decide)
      (by decide) (by decide) (by decide)).2⟩

/-! ## Pointer events -/

/-- C10, as stated, fails when a tooltip is open: a `mousedown` on the marker, and
also one away from every marker, closes the tooltip and clears the
currently-open-tooltip state. -/
theorem mousedown_closes_tooltip :
    hoverLayer._openToolTip = some tipMarker ∧
    (_executeListeners hoverLayer ⟨"mousedown", ⟨0, 0⟩⟩).returned = true ∧
    (_executeListeners hoverLayer ⟨"mousedown", ⟨0, 0⟩⟩).layer._openToolTip = none ∧
    (_executeListeners hoverLayer ⟨"mousedown", ⟨0, 0⟩⟩).layer.effects =
      hoverLayer.effects ++ [Effect.closeTooltip tipMarker, Effect.cursor "pointer"] ∧
    (_executeListeners hoverLayer ⟨"mouseup", ⟨500, 500⟩⟩).layer._openToolTip = none ∧
    (_executeListeners hoverLayer ⟨"mouseup", ⟨500, 500⟩⟩).layer.effects =
      hoverLayer.effects ++ [Effect.closeTooltip tipMarker, Effect.cursor ""] := by
  decide!

/-- C10, amended: on a layer with a map, `_executeListeners` returns for every
pointer event of kind `mousedown` or `mouseup`.  It opens no tooltip and no
popup; a tooltip that was open is closed and the currently-open-tooltip state is
empty afterwards (so it is unchanged when none was open); then the cursor is
set, and on a hit the listeners of that kind, and no others, are called in the
order of their registration. -/
theorem executeListeners_down_up (L : Layer) (event : PointerEvent) (map : MapView)
    (hmap : L._map = some map)
    (hk : event.type = "mousedown" ∨ event.type = "mouseup") :
    ∃ L1, _executeListeners L event = .done L1 ∧ L1._openToolTip = none ∧
      L1.effects = L.effects ++ L._openToolTip.toList.map Effect.closeTooltip ++
        (if hits L event = [] then [Effect.cursor ""]
         else Effect.cursor "pointer" ::
           (if event.type = "mousedown" then L._onMouseDownListeners
            else L._onMouseUpListeners).map (fun l => Effect.listener l event (hits L event))) := by
  have hclick : event.type ≠ "click" := by
    rcases hk with hk | hk <;> rw [hk] <;> decide
  have hmove : event.type ≠ "mousemove" := by
    rcases hk with hk | hk <;> rw [hk] <;> decide
  unfold _executeListeners hits
  cases htip : L._openToolTip with
  | none =>
    simp only [htip, hmap]
    cases hret : RBush.search ScreenData.toBBox L._showMarkers
        ⟨event.containerPoint.x, event.containerPoint.y, event.containerPoint.x,
         event.containerPoint.y⟩ with
    | nil => exact ⟨_, rfl, rfl, by simp⟩
    | cons hit rest =>
      rcases hk with hk | hk
      · refine ⟨_, rfl, ?_, ?_⟩ <;> simp [hk, callListeners, htip]
      · refine ⟨_, rfl, ?_, ?_⟩ <;> simp [hk, callListeners, htip]
  | some m =>
    simp only [hmap]
    cases hret : RBush.search ScreenData.toBBox L._showMarkers
        ⟨event.containerPoint.x, event.containerPoint.y, event.containerPoint.x,
         event.containerPoint.y⟩ with
    | nil => exact ⟨_, rfl, rfl, by simp⟩
    | cons hit rest =>
      rcases hk with hk | hk
      · refine ⟨_, rfl, ?_, ?_⟩ <;> simp [hk, callListeners]
      · refine ⟨_, rfl, ?_, ?_⟩ <;> simp [hk, callListeners]

/-- The amended C10 at a `mousedown` on the marker whose tooltip is open. -/
theorem executeListeners_down_up_witness :
    hoverLayer._map = some view0 ∧
    ((⟨"mousedown", ⟨0, 0⟩⟩ : PointerEvent).type = "mousedown" ∨
      (⟨"mousedown", ⟨0, 0⟩⟩ : PointerEvent).type = "mouseup") ∧
    ∃ L1, _executeListeners hoverLayer ⟨"mousedown", ⟨0, 0⟩⟩ = .done L1 ∧
      L1._openToolTip = none ∧
      L1.effects = hoverLayer.effects ++ hoverLayer._openToolTip.toList.map Effect.closeTooltip ++
        (if hits hoverLayer ⟨"mousedown", ⟨0, 0⟩⟩ = [] then [Effect.cursor ""]
         else Effect.cursor "pointer" ::
           (if (⟨"mousedown", ⟨0, 0⟩⟩ : PointerEvent).type = "mousedown"
            then hoverLayer._onMouseDownListeners
            else hoverLayer._onMouseUpListeners).map
              (fun l => Effect.listener l ⟨"mousedown", ⟨0, 0⟩⟩
                (hits hoverLayer ⟨"mousedown", ⟨0, 0⟩⟩))) :=
  ⟨by with_unfolding_all rfl, Or.inl rfl,
    executeListeners_down_up hoverLayer ⟨"mousedown", ⟨0, 0⟩⟩ view0
      (by with_unfolding_all rfl) (Or.inl rfl)⟩

/-! ## The collision index after a redraw -/

/-- The loop over a list in two parts: the second part runs from the state the
first part ends in, and so does the acceptance. -/
theorem acceptedOf_append (xs ys : List ScreenData) (S : Layer)
    (hmap : S._map.isSome = true) (hctx : S._ctx.isSome = true)
    (hv : ∀ c ∈ xs, c.pointPos.isSome = true ∧ c.data.icon.isSome = true) :
    acceptedOf S (xs ++ ys) = acceptedOf S xs ++ acceptedOf (drawAll S xs).layer ys := by
  induction xs generalizing S with
  | nil => rfl
  | cons x xs ih =>
    have hvx := hv x (List.mem_cons_self x xs)
    obtain ⟨p, hp⟩ := Option.isSome_iff_exists.mp hvx.1
    have hr : (_drawMarker S x.data x.pointPos).returned = true := by
      rw [hp]; exact drawMarker_returned S x.data p hmap hctx hvx.2
    have hc := drawMarker_sameCore S x.data x.pointPos
    have ih1 := ih (_drawMarker S x.data x.pointPos).layer
      (by rw [hc.map]; exact hmap) (by rw [hc.ctx]; exact hctx)
      (fun c hc => hv c (List.mem_cons_of_mem _ hc))
    have h1 : acceptedOf S (x :: (xs ++ ys)) =
        if accepted S x then x :: acceptedOf (_drawMarker S x.data x.pointPos).layer (xs ++ ys)
        else acceptedOf (_drawMarker S x.data x.pointPos).layer (xs ++ ys) := rfl
    have h2 : acceptedOf S (x :: xs) =
        if accepted S x then x :: acceptedOf (_drawMarker S x.data x.pointPos).layer xs
        else acceptedOf (_drawMarker S x.data x.pointPos).layer xs := rfl
    rw [List.cons_append, h1, h2, ih1, drawAll_cons x xs S hr]
    cases accepted S x <;> simp

/-- A candidate that is not accepted leaves the layer as it is: nothing is drawn,
queued or loaded, and neither index gets an entry. -/
theorem drawMarker_rejected (S : Layer) (c : ScreenData)
    (hv : c.pointPos.isSome = true ∧ c.data.icon.isSome = true)
    (h : accepted S c = false) : _drawMarker S c.data c.pointPos = .done S := by
  obtain ⟨p, hp⟩ := Option.isSome_iff_exists.mp hv.1
  obtain ⟨ic, hi⟩ := Option.isSome_iff_exists.mp hv.2
  simp only [accepted, hp, hi] at h
  unfold _drawMarker
  simp only [hp, hi]
  cases hs : collisionStep S c.data ic p with
  | none => rfl
  | some S1 => rw [hs] at h; simp at h

/-- With `collisionFlg` on, a candidate is accepted exactly when its footprint
intersects no box of the collision index. -/
theorem accepted_iff_clear (S : Layer) (c : ScreenData) (h : S.options.collisionFlg = true)
    (hv : c.pointPos.isSome = true ∧ c.data.icon.isSome = true) :
    accepted S c = true ↔
      ∀ fc, footprint c = some fc → ∀ b ∈ S._showMarkerBounds.items, intersects fc b = false := by
  obtain ⟨p, hp⟩ := Option.isSome_iff_exists.mp hv.1
  obtain ⟨ic, hi⟩ := Option.isSome_iff_exists.mp hv.2
  have hf : footprint c = some (markerBounds ic p) := by simp [footprint, hp, hi]
  rw [accepted_on S c p ic h hp hi]
  simp only [RBush.collides, Bool.not_eq_true', List.any_eq_false, id, hf, Option.some.injEq]
  constructor
  · intro h1 fc hfc b hb
    subst hfc
    simpa using h1 b hb
  · intro h1 b hb
    simpa using h1 _ rfl b hb

/-- The loop over a list in two parts: when the first part returns, the second
runs from the state it ends in. -/
theorem drawAll_append (xs ys : List ScreenData) (S : Layer)
    (hr : (drawAll S xs).returned = true) :
    drawAll S (xs ++ ys) = drawAll (drawAll S xs).layer ys := by
  induction xs generalizing S with
  | nil => rfl
  | cons x xs ih =>
    cases hd : _drawMarker S x.data x.pointPos with
    | done S1 =>
      have e1 : drawAll S (x :: xs) = drawAll S1 xs := by rw [drawAll, hd]
      have e2 : drawAll S (x :: (xs ++ ys)) = drawAll S1 (xs ++ ys) := by rw [drawAll, hd]
      rw [List.cons_append, e2, e1]
      exact ih S1 (by rw [← e1]; exact hr)
    | threw S1 =>
      have e1 : drawAll S (x :: xs) = .threw S1 := by rw [drawAll, hd]
      rw [e1] at hr
      exact absurd hr (by simp [Res.returned])

/-- A candidate that is accepted is handed to the image step of `_drawMarker`,
which draws it or, while its image is loading, queues it. -/
theorem drawMarker_accepted (S : Layer) (c : ScreenData)
    (hv : c.pointPos.isSome = true ∧ c.data.icon.isSome = true)
    (h : accepted S c = true) :
    ∃ p ic S1, c.pointPos = some p ∧ c.data.icon = some ic ∧
      collisionStep S c.data ic p = some S1 ∧
      _drawMarker S c.data c.pointPos = resolveIcon S1 c.data ic p := by
  obtain ⟨p, hp⟩ := Option.isSome_iff_exists.mp hv.1
  obtain ⟨ic, hi⟩ := Option.isSome_iff_exists.mp hv.2
  simp only [accepted, hp, hi] at h
  obtain ⟨S1, hs⟩ := Option.isSome_iff_exists.mp h
  refine ⟨p, ic, S1, hp, hi, hs, ?_⟩
  unfold _drawMarker
  simp only [hp, hi, hs]

theorem shownRecord_toBBox (c : ScreenData) :
    (shownRecord c).map ScreenData.toBBox = footprint c := by
  unfold shownRecord
  cases footprint c <;> rfl

/-- C11: on a layer with a view attached whose indexed markers all have an icon,
with `collisionFlg` on, `_redraw` returns and afterwards: the boxes of the
collision index are pairwise non-overlapping; the visible-set index holds, in the
same order, exactly one record for each box of the collision index, and both
hold what the accepted candidates contributed; a candidate, at its turn in the
sorted order, is accepted if and only if its footprint overlaps the footprint of
no candidate accepted before it, and the accepted candidates are those
accepted at their turn; the call for an accepted candidate appends its box and
its record to the two indices and goes on to the image step, which draws the
marker or queues it until its image has loaded, and the call for a rejected
candidate leaves the whole layer, both indices included, as it is. -/
theorem redraw_collision_index (L : Layer) (clear : Bool) (map : MapView)
    (hmap : L._map = some map) (hctx : L._ctx.isSome = true)
    (hv : ∀ e ∈ L._markers.items, e.data.icon.isSome = true)
    (hflg : L.options.collisionFlg = true) :
    ∃ L1, _redraw L clear = .done L1 ∧
      L1._showMarkerBounds.items.Pairwise (fun a b => intersects a b = false) ∧
      L1._showMarkers.items.map ScreenData.toBBox = L1._showMarkerBounds.items ∧
      L1._showMarkerBounds.items =
        (acceptedOf (redrawStart L clear) (dispatchOrder L map)).filterMap footprint ∧
      L1._showMarkers.items =
        (acceptedOf (redrawStart L clear) (dispatchOrder L map)).filterMap shownRecord ∧
      ∀ pre c post, dispatchOrder L map = pre ++ c :: post →
        (accepted (drawAll (redrawStart L clear) pre).layer c = true ↔
          ∀ a ∈ acceptedOf (redrawStart L clear) pre, ¬ overlap c a) ∧
        acceptedOf (redrawStart L clear) (dispatchOrder L map) =
          acceptedOf (redrawStart L clear) pre ++
            (if accepted (drawAll (redrawStart L clear) pre).layer c then [c] else []) ++
            acceptedOf (drawAll (redrawStart L clear) (pre ++ [c])).layer post ∧
        (drawAll (redrawStart L clear) (pre ++ [c])).layer._showMarkerBounds.items =
          (drawAll (redrawStart L clear) pre).layer._showMarkerBounds.items ++
            (if accepted (drawAll (redrawStart L clear) pre).layer c
              then (footprint c).toList else []) ∧
        (drawAll (redrawStart L clear) (pre ++ [c])).layer._showMarkers.items =
          (drawAll (redrawStart L clear) pre).layer._showMarkers.items ++
            (if accepted (drawAll (redrawStart L clear) pre).layer c
              then (shownRecord c).toList else []) ∧
        (accepted (drawAll (redrawStart L clear) pre).layer c = true →
          ∃ p ic S1, c.pointPos = some p ∧ c.data.icon = some ic ∧
            collisionStep (drawAll (redrawStart L clear) pre).layer c.data ic p = some S1 ∧
            _drawMarker (drawAll (redrawStart L clear) pre).layer c.data c.pointPos =
              resolveIcon S1 c.data ic p) ∧
        (accepted (drawAll (redrawStart L clear) pre).layer c = false →
          _drawMarker (drawAll (redrawStart L clear) pre).layer c.data c.pointPos =
            .done (drawAll (redrawStart L clear) pre).layer) := by
  obtain ⟨heq, hret, hvalid⟩ := redraw_eq L clear map hmap hctx hv
  rw [dispatchOrder_start] at heq hret hvalid
  have hfr := redrawStart_frame L clear
  have hflg1 : (redrawStart L clear).options.collisionFlg = true := by rw [hfr.1]; exact hflg
  have hmap1 : (redrawStart L clear)._map.isSome = true := by rw [hfr.2.1, hmap]; rfl
  have hctx1 : (redrawStart L clear)._ctx.isSome = true := by rw [hfr.2.2.1]; exact hctx
  have hidx := drawAll_index (dispatchOrder L map) (redrawStart L clear) hflg1 hmap1 hctx1 hvalid
  rw [hfr.2.2.2.2.1, List.nil_append] at hidx
  rw [hfr.2.2.2.2.2, List.nil_append] at hidx
  have hopt : (drawAll (redrawStart L clear) (dispatchOrder L map)).layer.options.collisionFlg
      = true := by
    rw [(drawAll_sameCore _ _).options]; exact hflg1
  have hb : (redrawEnd (drawAll (redrawStart L clear) (dispatchOrder L map)).layer
      (dispatchOrder L map))._showMarkerBounds.items =
      (acceptedOf (redrawStart L clear) (dispatchOrder L map)).filterMap footprint := by
    rw [← hidx.1]; simp [redrawEnd, hopt]
  have hs : (redrawEnd (drawAll (redrawStart L clear) (dispatchOrder L map)).layer
      (dispatchOrder L map))._showMarkers.items =
      (acceptedOf (redrawStart L clear) (dispatchOrder L map)).filterMap shownRecord := by
    rw [← hidx.2]; simp [redrawEnd, hopt]
  refine ⟨_, heq, ?_, ?_, hb, hs, ?_⟩
  · rw [hb, List.pairwise_filterMap]
    refine (acceptedOf_pairwise _ _ hflg1 hvalid).imp ?_
    intro a b hab fa hfa fb hfb
    cases hint : intersects fa fb with
    | false => rfl
    | true => exact absurd ⟨fa, fb, by simpa using hfa, by simpa using hfb, hint⟩ hab
  · rw [hb, hs, List.map_filterMap]
    congr 1
    funext c
    exact shownRecord_toBBox c
  · intro pre c post hsplit
    have hvpre : ∀ x ∈ pre, x.pointPos.isSome = true ∧ x.data.icon.isSome = true := by
      intro x hx; exact hvalid x (by rw [hsplit]; exact List.mem_append_left _ hx)
    have hvc : c.pointPos.isSome = true ∧ c.data.icon.isSome = true :=
      hvalid c (by rw [hsplit]; simp)
    have hvpc : ∀ x ∈ pre ++ [c], x.pointPos.isSome = true ∧ x.data.icon.isSome = true := by
      intro x hx
      rcases List.mem_append.mp hx with hx | hx
      · exact hvpre x hx
      · rw [List.mem_singleton.mp hx]; exact hvc
    have hcore := drawAll_sameCore pre (redrawStart L clear)
    have hflg2 : (drawAll (redrawStart L clear) pre).layer.options.collisionFlg = true := by
      rw [hcore.options]; exact hflg1
    have hidxp := (drawAll_index pre (redrawStart L clear) hflg1 hmap1 hctx1 hvpre).1
    rw [hfr.2.2.2.2.1, List.nil_append] at hidxp
    have hone := drawMarker_index (drawAll (redrawStart L clear) pre).layer c hflg2 hvc
    -- the state after `pre ++ [c]` is the state after one more call
    have hstep : (drawAll (redrawStart L clear) (pre ++ [c])).layer =
        (_drawMarker (drawAll (redrawStart L clear) pre).layer c.data c.pointPos).layer := by
      have hrp := drawAll_returned pre (redrawStart L clear) hmap1 hctx1 hvpre
      rw [drawAll_append pre [c] _ hrp, drawAll]
      cases hd : _drawMarker (drawAll (redrawStart L clear) pre).layer c.data c.pointPos with
      | done S1 => rfl
      | threw S1 => rfl
    refine ⟨?_, ?_, ?_, ?_, fun h => drawMarker_accepted _ c hvc h,
      fun h => drawMarker_rejected _ c hvc h⟩
    · rw [accepted_iff_clear _ c hflg2 hvc, hidxp]
      constructor
      · intro h1 a ha hov
        obtain ⟨fc, fa, hfc, hfa, hint⟩ := hov
        have := h1 fc hfc fa (List.mem_filterMap.mpr ⟨a, ha, hfa⟩)
        rw [this] at hint
        exact absurd hint (by simp)
      · intro h1 fc hfc b hb
        obtain ⟨a, ha, hfa⟩ := List.mem_filterMap.mp hb
        cases hint : intersects fc b with
        | false => rfl
        | true => exact absurd ⟨fc, b, hfc, hfa, hint⟩ (h1 a ha)
    · rw [hsplit, acceptedOf_append pre (c :: post) _ hmap1 hctx1 hvpre, hstep]
      have hcons : acceptedOf (drawAll (redrawStart L clear) pre).layer (c :: post) =
          if accepted (drawAll (redrawStart L clear) pre).layer c then
            c :: acceptedOf (_drawMarker (drawAll (redrawStart L clear) pre).layer
              c.data c.pointPos).layer post
          else acceptedOf (_drawMarker (drawAll (redrawStart L clear) pre).layer
              c.data c.pointPos).layer post := rfl
      rw [hcons]
      cases accepted (drawAll (redrawStart L clear) pre).layer c <;> simp
    · rw [hstep]; exact hone.1
    · rw [hstep]; exact hone.2

/-- C11 at the three markers in a row. -/
theorem redraw_collision_index_witness :
    chainLayer._map = some view0 ∧ chainLayer._ctx.isSome = true ∧
    (∀ e ∈ chainLayer._markers.items, e.data.icon.isSome = true) ∧
    chainLayer.options.collisionFlg = true ∧
    ∃ L1, _redraw chainLayer true = .done L1 ∧
      L1._showMarkerBounds.items.Pairwise (fun a b => intersects a b = false) ∧
      L1._showMarkers.items.map ScreenData.toBBox = L1._showMarkerBounds.items ∧
      L1._showMarkerBounds.items = [⟨-10, -10, 40, 490⟩, ⟨70, -10, 120, 490⟩] := by
  obtain ⟨L1, h1, h2, h3, h4, _, _⟩ :=
    redraw_collision_index chainLayer true view0 rfl (by decide) (by decide) (by decide)
  exact ⟨rfl, by decide, by decide, by decide, L1, h1, h2, h3, by rw [h4]; decide!⟩

/-! ## Collision suppression over the whole redraw -/

theorem sortLe_on (a b : ScreenData) :
    sortLe true a b ↔ zIndexOf b.data ≤ zIndexOf a.data := by
  simp only [sortLe, compareFn, if_true, mul_one]
  constructor <;> intro h <;> linarith

theorem sortLe_off (a b : ScreenData) :
    sortLe false a b ↔ zIndexOf a.data ≤ zIndexOf b.data := by
  simp only [sortLe, compareFn, Bool.false_eq_true, if_false]
  constructor <;> intro h <;> linarith

/-- The dispatch order is sorted by the comparator of `_redraw`. -/
theorem dispatchOrder_sorted (L : Layer) (map : MapView) :
    (dispatchOrder L map).Pairwise (sortLe L.options.collisionFlg) := by
  haveI : IsTotal ScreenData (sortLe L.options.collisionFlg) := ⟨by
    intro a b
    cases L.options.collisionFlg
    · rw [sortLe_off, sortLe_off]; exact le_total _ _
    · rw [sortLe_on, sortLe_on]; exact le_total _ _⟩
  haveI : IsTrans ScreenData (sortLe L.options.collisionFlg) := ⟨by
    intro a b c
    cases L.options.collisionFlg
    · rw [sortLe_off, sortLe_off, sortLe_off]; exact le_trans
    · rw [sortLe_on, sortLe_on, sortLe_on]; exact fun h1 h2 => le_trans h2 h1⟩
  exact List.sorted_insertionSort _ _

/-- The value the comparator sorts by is the priority of the marker, unless its
`zIndex` is configured as 0. -/
theorem zIndexOf_eq_priority (m : Marker) (h : m.zIndex ≠ some 0) : zIndexOf m = priority m := by
  unfold zIndexOf priority
  cases hz : m.zIndex with
  | none => rfl
  | some z =>
    have : z ≠ 0 := by
      intro h0; apply h; rw [hz, h0]
    simp [truthyNum, this]

/-- Every candidate of the dispatch order is the candidate of an indexed marker. -/
theorem dispatchOrder_indexed (L : Layer) (map : MapView)
    (hv : ∀ e ∈ L._markers.items, e.data.icon.isSome = true) :
    ∀ c ∈ dispatchOrder L map, ∃ e ∈ L._markers.items, e.data = c.data := by
  intro c hc
  have h1 : c.data ∈ (dispatchOrder L map).map (fun c => c.data) := List.mem_map_of_mem _ hc
  have h2 := (dispatchOrder_perm L map hv).subset h1
  obtain ⟨e, he, hed⟩ := List.mem_map.mp h2
  exact ⟨e, search_subset _ _ e he, hed⟩

/-- With `collisionFlg` off, `_drawMarker` is its image step. -/
theorem drawMarker_off (L : Layer) (m : Marker) (ic : IconOptions) (p : Point)
    (h : L.options.collisionFlg = false) (hi : m.icon = some ic) :
    _drawMarker L m (some p) = resolveIcon L m ic p := by
  unfold _drawMarker
  simp [hi, collisionStep, h]

/-- With `collisionFlg` off, the loop of `_redraw` runs the image step for every
candidate, in order. -/
theorem drawAll_off (cs : List ScreenData) (L : Layer) (h : L.options.collisionFlg = false)
    (hv : ∀ c ∈ cs, c.pointPos.isSome = true ∧ c.data.icon.isSome = true) :
    drawAll L cs = resolveAll L cs := by
  induction cs generalizing L with
  | nil => rfl
  | cons c cs ih =>
    have hvc := hv c (List.mem_cons_self c cs)
    obtain ⟨p, hp⟩ := Option.isSome_iff_exists.mp hvc.1
    obtain ⟨ic, hi⟩ := Option.isSome_iff_exists.mp hvc.2
    have hd := drawMarker_off L c.data ic p h hi
    have hc := (resolveIcon_sameCore L c.data ic p).1
    rw [drawAll, resolveAll, hp, hd]
    simp only [hi]
    cases hr : resolveIcon L c.data ic p with
    | done L1 =>
      rw [hr] at hc
      exact ih L1 (by rw [show L1.options = L.options from hc.options]; exact h)
        (fun c hc => hv c (List.mem_cons_of_mem _ hc))
    | threw L1 => rfl

/-- C3, amended: on a layer with a view attached whose indexed markers all have an
icon, `_redraw` returns the state its loop over the dispatch order leaves, with
`_containMarkers` loaded.  With `collisionFlg` on: the visible-set index holds
the records of the accepted candidates; no two accepted candidates have
overlapping footprints (of two overlapping candidates at most one is accepted);
the candidate dispatched first is accepted; when no indexed marker has `zIndex`
0 the dispatch order is by non-increasing priority, so that candidate is one of
highest priority; a candidate accepted at its turn is among the accepted ones
and is handed to the image step, and one rejected at its turn changes nothing.
With `collisionFlg` off: every candidate is accepted, the candidates are the
markers of the master-index entries in the viewport, each as often, the loop is
the image step run for every candidate in dispatch order, and the visible-set
index holds every candidate.  For `markerM1` (priority 1) and `markerM2`
(priority 5) at one position, only `markerM2` is accepted and in the visible-set
index. -/
theorem redraw_collision (L : Layer) (clear : Bool) (map : MapView)
    (hmap : L._map = some map) (hctx : L._ctx.isSome = true)
    (hv : ∀ e ∈ L._markers.items, e.data.icon.isSome = true) :
    (∃ L1, _redraw L clear = .done L1 ∧
      L1 = redrawEnd (drawAll (redrawStart L clear) (dispatchOrder L map)).layer
        (dispatchOrder L map) ∧
      (L.options.collisionFlg = true →
        L1._showMarkers.items =
          (acceptedOf (redrawStart L clear) (dispatchOrder L map)).filterMap shownRecord ∧
        (acceptedOf (redrawStart L clear) (dispatchOrder L map)).Pairwise
          (fun a b => ¬ overlap a b) ∧
        (acceptedOf (redrawStart L clear) (dispatchOrder L map)).head? =
          (dispatchOrder L map).head? ∧
        ((∀ e ∈ L._markers.items, e.data.zIndex ≠ some 0) →
          (dispatchOrder L map).Pairwise (fun a b => priority b.data ≤ priority a.data)) ∧
        ∀ pre c post, dispatchOrder L map = pre ++ c :: post →
          (accepted (drawAll (redrawStart L clear) pre).layer c = true →
            c ∈ acceptedOf (redrawStart L clear) (dispatchOrder L map) ∧
            ∃ p ic S1, c.pointPos = some p ∧ c.data.icon = some ic ∧
              collisionStep (drawAll (redrawStart L clear) pre).layer c.data ic p = some S1 ∧
              _drawMarker (drawAll (redrawStart L clear) pre).layer c.data c.pointPos =
                resolveIcon S1 c.data ic p) ∧
          (accepted (drawAll (redrawStart L clear) pre).layer c = false →
            _drawMarker (drawAll (redrawStart L clear) pre).layer c.data c.pointPos =
              .done (drawAll (redrawStart L clear) pre).layer)) ∧
      (L.options.collisionFlg = false →
        acceptedOf (redrawStart L clear) (dispatchOrder L map) = dispatchOrder L map ∧
        ((dispatchOrder L map).map (fun c => c.data)).Perm
          ((RBush.search MarkerData.toBBox L._markers (mapBoxCoords map)).map
            (fun e => e.data)) ∧
        drawAll (redrawStart L clear) (dispatchOrder L map) =
          resolveAll (redrawStart L clear) (dispatchOrder L map) ∧
        L1._showMarkers.items = dispatchOrder L map)) ∧
    ((acceptedOf (redrawStart pairLayer true) (dispatchOrder pairLayer view0)).map
        (fun c => c.data.id) = [22] ∧
      (redraw pairLayer).layer._showMarkers.items.map (fun r => r.data.id) = [22]) := by
  refine ⟨?_, by decide!⟩
  obtain ⟨heq, hret, hvalid⟩ := redraw_eq L clear map hmap hctx hv
  rw [dispatchOrder_start] at heq hret hvalid
  have hfr := redrawStart_frame L clear
  have hmap1 : (redrawStart L clear)._map.isSome = true := by rw [hfr.2.1, hmap]; rfl
  have hctx1 : (redrawStart L clear)._ctx.isSome = true := by rw [hfr.2.2.1]; exact hctx
  refine ⟨_, heq, rfl, ?_, ?_⟩
  · intro hflg
    have hflg1 : (redrawStart L clear).options.collisionFlg = true := by rw [hfr.1]; exact hflg
    have hidx := (drawAll_index (dispatchOrder L map) (redrawStart L clear) hflg1
      hmap1 hctx1 hvalid).2
    have hopt : (drawAll (redrawStart L clear) (dispatchOrder L map)).layer.options.collisionFlg
        = true := by
      rw [(drawAll_sameCore _ _).options]; exact hflg1
    refine ⟨?_, acceptedOf_pairwise _ _ hflg1 hvalid, ?_, ?_, ?_⟩
    · rw [hfr.2.2.2.2.2, List.nil_append] at hidx
      rw [← hidx]
      simp [redrawEnd, hopt]
    · cases hd : dispatchOrder L map with
      | nil => simp [acceptedOf]
      | cons c cs =>
        rw [hd] at hvalid
        exact acceptedOf_head c cs _ hfr.2.2.2.2.1 (hvalid c (List.mem_cons_self c cs))
    · intro hz
      have hs := dispatchOrder_sorted L map
      rw [hflg] at hs
      have hmem := dispatchOrder_indexed L map hv
      refine (List.Pairwise.and_mem.mp hs).imp ?_
      intro a b hab
      obtain ⟨ha, hb, hle⟩ := hab
      obtain ⟨ea, hea, hda⟩ := hmem a ha
      obtain ⟨eb, heb, hdb⟩ := hmem b hb
      rw [sortLe_on] at hle
      rw [← zIndexOf_eq_priority a.data (by rw [← hda]; exact hz ea hea),
        ← zIndexOf_eq_priority b.data (by rw [← hdb]; exact hz eb heb)]
      exact hle
    · intro pre c post hsplit
      have hvpre : ∀ x ∈ pre, x.pointPos.isSome = true ∧ x.data.icon.isSome = true := by
        intro x hx; exact hvalid x (by rw [hsplit]; exact List.mem_append_left _ hx)
      have hvc : c.pointPos.isSome = true ∧ c.data.icon.isSome = true :=
        hvalid c (by rw [hsplit]; simp)
      refine ⟨fun h => ⟨?_, drawMarker_accepted _ c hvc h⟩,
        fun h => drawMarker_rejected _ c hvc h⟩
      rw [hsplit, acceptedOf_append pre (c :: post) _ hmap1 hctx1 hvpre]
      have hcons : acceptedOf (drawAll (redrawStart L clear) pre).layer (c :: post) =
          if accepted (drawAll (redrawStart L clear) pre).layer c then
            c :: acceptedOf (_drawMarker (drawAll (redrawStart L clear) pre).layer
              c.data c.pointPos).layer post
          else acceptedOf (_drawMarker (drawAll (redrawStart L clear) pre).layer
              c.data c.pointPos).layer post := rfl
      rw [hcons, h, if_pos rfl]
      simp
  · intro hflg
    have hflg1 : (redrawStart L clear).options.collisionFlg = false := by rw [hfr.1]; exact hflg
    have hopt : (drawAll (redrawStart L clear) (dispatchOrder L map)).layer.options = L.options := by
      rw [(drawAll_sameCore _ _).options, hfr.1]
    refine ⟨acceptedOf_off _ _ hflg1 hvalid, dispatchOrder_perm L map hv,
      drawAll_off _ _ hflg1 hvalid, ?_⟩
    simp [redrawEnd, hopt, hflg, RBush.load, RBush.clear]

/-- The amended C3 at the three markers in a row. -/
theorem redraw_collision_witness :
    chainLayer._map = some view0 ∧ chainLayer._ctx.isSome = true ∧
    (∀ e ∈ chainLayer._markers.items, e.data.icon.isSome = true) ∧
    ∃ L1, _redraw chainLayer true = .done L1 ∧
      L1 = redrawEnd (drawAll (redrawStart chainLayer true) (dispatchOrder chainLayer view0)).layer
        (dispatchOrder chainLayer view0) ∧
      L1._showMarkers.items =
        (acceptedOf (redrawStart chainLayer true)
          (dispatchOrder chainLayer view0)).filterMap shownRecord ∧
      (acceptedOf (redrawStart chainLayer true) (dispatchOrder chainLayer view0)).Pairwise
        (fun a b => ¬ overlap a b) ∧
      (acceptedOf (redrawStart chainLayer true) (dispatchOrder chainLayer view0)).head? =
        (dispatchOrder chainLayer view0).head? ∧
      (dispatchOrder chainLayer view0).Pairwise (fun a b => priority b.data ≤ priority a.data) := by
  obtain ⟨L1, h1, h2, h3, _⟩ :=
    (redraw_collision chainLayer true view0 rfl (by decide) (by decide)).1
  obtain ⟨h4, h5, h6, h7, _⟩ := h3 (by decide)
  exact ⟨rfl, by decide, by decide, L1, h1, h2, h4, h5, h6, h7 (by decide)⟩

end CanvasMarkerLayer
